import Mathlib

/-!
# streamcatcher: the capture loop and the playlist fetcher

A shallow embedding of `main.go`:

* `downloadStream` (the raw-stream branch, lines 96-146) as a step function over the
  local variables `totalBytes`, `partNumber`, `outputFile`, the part files written so
  far and the program point; the environment (HTTP connect results, read results, file
  creation and write results) is supplied as events;
* `downloadFromPlaylist` (lines 72-83) as a function from the playlist body to the list
  of `downloadSegment` calls it makes.
-/

namespace StreamCatcher

/-! ## Raw stream capture: `downloadStream` -/

/-- The constant `maxFileSize` of `main.go` line 20: 4 GiB. -/
def maxFileSize : Nat := 4 * 1024 * 1024 * 1024

/-- Length of the read buffer, `make([]byte, 4096)` on line 113. -/
def bufSize : Nat := 4096

/-- Seconds slept on line 104 and on line 145. -/
def reconnectDelay : Nat := 10

/-- Seconds slept on line 117. -/
def idleDelay : Nat := 1

/-- The error value returned by `resp.Body.Read`: `io.EOF` or any other error. -/
inductive ReadErr where
  | eof
  | other
  deriving DecidableEq, Repr

/-- Program point of the task: at `client.Get` (line 101) or at `resp.Body.Read`
(line 115). -/
inductive Control where
  | connecting
  | streaming
  deriving DecidableEq, Repr

/-- Side effects of the loop that are not visible in its variables. The argument of
`create` and `closeFile` is the part number in the file name behind the handle. -/
inductive Action where
  | get
  | sleep (seconds : Nat)
  | create (part : Nat)
  | closeFile (handle : Option Nat)
  | closeBody
  | logLine
  deriving DecidableEq, Repr

/-- The variables of `downloadStream` and the part files of this run.
`files k` is the content of `<prefix>_part<k>.ts` since this run last created it
(`none`: not created by this run); `outputFile` is the part number under which the
handle held in the variable `outputFile` was created (`none`: no open handle).
`totalBytes` (an `int64`) and `partNumber` (an `int`) are natural numbers here: the
counter stays below the threshold plus one buffer, and the part number grows by at
most one per read. -/
structure CaptureState where
  totalBytes : Nat
  partNumber : Nat
  outputFile : Option Nat
  files : Nat → Option (List Nat)
  control : Control

/-- What the environment answers at the current program point.
* `connectFail`: `client.Get` returns an error (line 102);
* `connectOk createOk`: `client.Get` succeeds, `os.Create` on line 108 succeeds or not;
* `read data err createOk written`: `resp.Body.Read` returns `len data` bytes (the
  slice `buf[:bytesRead]`) and `err`; `createOk` is the result of `os.Create` on line
  129 should the read rotate; `written` is the number of bytes `outputFile.Write`
  stores (fewer than `len data` exactly when the write returns an error). -/
inductive Event where
  | connectFail
  | connectOk (createOk : Bool)
  | read (data : List Nat) (err : Option ReadErr) (createOk : Bool) (written : Nat)
  deriving DecidableEq, Repr

/-- Result of one step: the task goes on in a new state, or the process exits through
`log.Fatal`. -/
inductive Outcome where
  | next (s : CaptureState) (acts : List Action)
  | fatal (acts : List Action)

/-- State at line 100, before the first connect: `totalBytes := 0`, `partNumber := 1`. -/
def initState : CaptureState :=
  { totalBytes := 0, partNumber := 1, outputFile := none, files := fun _ => none,
    control := Control.connecting }

/-- Effect of `os.Create` on the file of part `k`: it exists and is empty. -/
def createFile (files : Nat → Option (List Nat)) (k : Nat) : Nat → Option (List Nat) :=
  fun j => if j = k then some [] else files j

/-- Effect of `Write` through a handle: the first `written` bytes of `data` are appended
to the file behind the handle. -/
def writeFile (files : Nat → Option (List Nat)) (handle : Option Nat) (data : List Nat)
    (written : Nat) : Nat → Option (List Nat) :=
  match handle with
  | none => files
  | some k => fun j => if j = k then some ((files j).getD [] ++ data.take written) else files j

/-- Lines 101-111: one pass through the head of the outer loop. -/
def connectIter (s : CaptureState) (getOk createOk : Bool) : Outcome :=
  if getOk = false then
    Outcome.next s [Action.get, Action.logLine, Action.sleep reconnectDelay]
  else if createOk = false then
    Outcome.fatal [Action.get, Action.create s.partNumber, Action.logLine]
  else
    Outcome.next
      { s with outputFile := some s.partNumber,
               files := createFile s.files s.partNumber,
               control := Control.streaming }
      [Action.get, Action.create s.partNumber]

/-- Lines 115-139, and lines 142-145 when the read loop is left: one pass through the
inner loop with threshold `T` in the place of `maxFileSize`. -/
def readIter (T : Nat) (s : CaptureState) (data : List Nat) (err : Option ReadErr)
    (createOk : Bool) (written : Nat) : Outcome :=
  if data.length = 0 ∧ (err = some ReadErr.eof ∨ err = none) then
    Outcome.next s [Action.sleep idleDelay]
  else if err ≠ none then
    Outcome.next { s with outputFile := none, control := Control.connecting }
      [Action.logLine, Action.closeFile s.outputFile, Action.closeBody,
       Action.sleep reconnectDelay]
  else
    let total := s.totalBytes + data.length
    if total ≥ T then
      if createOk = false then
        Outcome.fatal [Action.closeFile s.outputFile, Action.create (s.partNumber + 1),
          Action.logLine]
      else
        Outcome.next
          { s with totalBytes := 0,
                   partNumber := s.partNumber + 1,
                   outputFile := some (s.partNumber + 1),
                   files := writeFile (createFile s.files (s.partNumber + 1))
                              (some (s.partNumber + 1)) data written }
          [Action.closeFile s.outputFile, Action.create (s.partNumber + 1)]
    else
      Outcome.next
        { s with totalBytes := total,
                 files := writeFile s.files s.outputFile data written }
        []

/-- One step of the task: the event must answer the call the task is making (`none`
otherwise). -/
def step (T : Nat) (s : CaptureState) : Event → Option Outcome
  | Event.connectFail =>
      if s.control = Control.connecting then some (connectIter s false true) else none
  | Event.connectOk createOk =>
      if s.control = Control.connecting then some (connectIter s true createOk) else none
  | Event.read data err createOk written =>
      if s.control = Control.streaming then some (readIter T s data err createOk written)
      else none

/-- Run the task over a sequence of events; `none` when an event does not answer the
pending call or the process has exited. -/
def run (T : Nat) : CaptureState → List Event → Option CaptureState
  | s, [] => some s
  | s, e :: es =>
      match step T s e with
      | some (Outcome.next s' _) => run T s' es
      | _ => none

/-- Number of bytes of part `k`, 0 when the file was never created. -/
def fileSize (s : CaptureState) (k : Nat) : Nat :=
  ((s.files k).getD []).length

/-- The read contract: `Read` returns at most `len(buf)` bytes. -/
def Event.wellFormed : Event → Prop
  | Event.read data _ _ _ => data.length ≤ bufSize
  | _ => True

/-- A read without error that delivers `data`, written in full, with `os.Create`
succeeding should it rotate. -/
def goodRead (data : List Nat) : Event :=
  Event.read data none true data.length

/-- The actions of an outcome. -/
def Outcome.acts : Outcome → List Action
  | Outcome.next _ acts => acts
  | Outcome.fatal acts => acts

/-- Actions performed over a sequence of events, up to where the run stops. -/
def trace (T : Nat) : CaptureState → List Event → List Action
  | _, [] => []
  | s, e :: es =>
      match step T s e with
      | some (Outcome.next s' acts) => acts ++ trace T s' es
      | some (Outcome.fatal acts) => acts
      | none => []

/-- Number of bytes a step adds to `totalBytes` on line 124: the length of the chunk of
a read that returned no error, 0 for every other event. -/
def counted : Event → Nat
  | Event.read data none _ _ => data.length
  | _ => 0

/-- The event is a read that reaches line 126 and passes the test
`totalBytes >= maxFileSize` there (with `T` for `maxFileSize`). -/
def rotates (T : Nat) (s : CaptureState) : Event → Prop
  | Event.read data err _ _ => err = none ∧ 0 < data.length ∧ T ≤ s.totalBytes + data.length
  | _ => False

/-- The condition of line 116: zero bytes, with `io.EOF` or with no error. -/
def Event.isIdleRead : Event → Prop
  | Event.read data err _ _ => data.length = 0 ∧ (err = some ReadErr.eof ∨ err = none)
  | _ => False

/-- A read that returns zero bytes and `io.EOF`. -/
def eofRead : Event :=
  Event.read [] (some ReadErr.eof) true 0

/-- The file name of part `n`: `fmt.Sprintf("%s_part%d.ts", outputFilePrefix, n)`. -/
def partFileName (pfx : String) (n : Nat) : String :=
  pfx ++ "_part" ++ toString n ++ ".ts"

/-- The handle in `outputFile` is the file of the current part number while streaming,
and no handle is open at the connect call. -/
def HandleInv (s : CaptureState) : Prop :=
  (s.control = Control.streaming → s.outputFile = some s.partNumber) ∧
  (s.control = Control.connecting → s.outputFile = none)

/-- The state a run from `initState` ends in (`initState` when it does not end in a
state). -/
def stateAfter (T : Nat) (evs : List Event) : CaptureState :=
  (run T initState evs).getD initState

/-- Concatenation of the `n` files with the part numbers `lo`, `lo + 1`, ... in this
order (a file that does not exist contributes nothing). -/
def concatFiles (files : Nat → Option (List Nat)) (lo : Nat) : Nat → List Nat
  | 0 => []
  | n + 1 => concatFiles files lo n ++ (files (lo + n)).getD []

/-- The part files from part `lo` up to the current part, concatenated in increasing
part-number order. -/
def partsConcat (s : CaptureState) (lo : Nat) : List Nat :=
  concatFiles s.files lo (s.partNumber + 1 - lo)

/-- A read result `(buf[:bytesRead], err)` for which every file operation succeeds:
the chunk is written in full and `os.Create` works should the read rotate. -/
def fullRead (r : List Nat × Option ReadErr) : Event :=
  Event.read r.1 r.2 true r.1.length

/-- The read result makes the loop take the `break` of line 121: `err` is non-nil and
the result is not zero bytes with `io.EOF`. -/
def endsLoop (r : List Nat × Option ReadErr) : Bool :=
  decide (r.2 ≠ none ∧ ¬ (r.1.length = 0 ∧ r.2 = some ReadErr.eof))

/-- In the words of the claim: the chunks returned by the reads that came back with no
error, before the first read whose error ended the read loop, in read order. -/
def chunksBeforeError (reads : List (List Nat × Option ReadErr)) : List (List Nat) :=
  ((reads.takeWhile (fun r => !endsLoop r)).filter (fun r => decide (r.2 = none))).map Prod.fst

/-- A full read buffer: 4096 bytes. -/
def fullChunk : List Nat := List.replicate 4096 0

/-- Reads of 4096 bytes up to 4 GiB (the last of them rotates into part 2), then
4 GiB - 4096 bytes more in reads of 4096 bytes, then one read of a single byte. -/
def overflowEvents : List Event :=
  Event.connectOk true ::
    (List.replicate 1048575 (goodRead fullChunk) ++
      goodRead fullChunk ::
        (List.replicate 1048575 (goodRead fullChunk) ++ [goodRead [0]]))

/-- The size of the chunk that the rotation creating the current part wrote into it,
after one more step: a connect creates the current part empty (no rotation chunk, 0); a
read that rotates writes `data.take written` as the first bytes of the new part; every
other step keeps the value. -/
def chunkAfter (T : Nat) (s : CaptureState) (c : Nat) : Event → Nat
  | Event.connectFail => c
  | Event.connectOk _ => 0
  | Event.read data err _ written =>
      if err = none ∧ 0 < data.length ∧ T ≤ s.totalBytes + data.length then
        (data.take written).length
      else c

/-- The value of `chunkAfter` at the end of a run from state `s` with value `c`. -/
def chunkAlong (T : Nat) : CaptureState → Nat → List Event → Nat
  | _, c, [] => c
  | s, c, e :: es =>
      match step T s e with
      | some (Outcome.next s' _) => chunkAlong T s' (chunkAfter T s c e) es
      | _ => c

/-- After the events `evs` from the start of the task: the number of bytes that were
written into the current part file at its rotation (0 when the current part file was
created by a connect). -/
def rotationChunk (T : Nat) (evs : List Event) : Nat :=
  chunkAlong T initState 0 evs

/-- With threshold 5000: a connect, reads of 4096 and 903 bytes, then a read of one byte
(which rotates). -/
def rotatedAwayEvents : List Event :=
  [Event.connectOk true, goodRead fullChunk, goodRead (List.replicate 903 0), goodRead [0]]

/-- With the program's threshold of 4 GiB: a connect and 1048576 reads of 4096 bytes, the
last of which rotates. -/
def firstRotationEvents : List Event :=
  Event.connectOk true :: (List.replicate 1048575 (goodRead fullChunk) ++ [goodRead fullChunk])

/-- Size invariant with the rotation chunk `c` of the current part. -/
def ChunkInv (T : Nat) (s : CaptureState) (c : Nat) : Prop :=
  HandleInv s ∧ s.totalBytes < T ∧ (∀ k, fileSize s k < T + bufSize) ∧
  c ≤ bufSize ∧ fileSize s s.partNumber ≤ s.totalBytes + c ∧
  1 ≤ s.partNumber ∧ (s.partNumber = 1 → c = 0)

/-- A run with threshold 10 that rotates on a read of 7 bytes and then reads one byte. -/
def rotatingEvents : List Event :=
  [Event.connectOk true, goodRead [1, 2, 3], goodRead [1, 2, 3, 4, 5, 6, 7], goodRead [8]]

/-- Invariant of the first connection of the task while every read returns no error and
every file operation succeeds: the counter and the sizes of parts 1 and 2, the bytes that
every rotation accounts for (at least `T` each), and no file beyond the current part. -/
def ScenarioInv (T : Nat) (s : CaptureState) : Prop :=
  s.control = Control.streaming ∧ s.outputFile = some s.partNumber ∧ 1 ≤ s.partNumber ∧
  s.totalBytes < T ∧ fileSize s 1 < T ∧
  (s.partNumber = 1 → fileSize s 1 = s.totalBytes) ∧
  (s.partNumber = 2 → T + s.totalBytes ≤ fileSize s 1 + fileSize s 2) ∧
  (3 ≤ s.partNumber → T ≤ fileSize s 1 + fileSize s 2) ∧
  (2 ≤ s.partNumber → 1 ≤ fileSize s 2) ∧
  (s.partNumber = 3 → 2 * T + s.totalBytes ≤ (partsConcat s 1).length) ∧
  (4 ≤ s.partNumber → 3 * T ≤ (partsConcat s 1).length) ∧
  (∀ k, s.partNumber < k → s.files k = none)

/-! ## Playlists: `downloadFromPlaylist` -/

/-- The default token limit of `bufio.Scanner`, `bufio.MaxScanTokenSize`. -/
def maxScanTokenSize : Nat := 64 * 1024

/-- Number of bytes of a text in UTF-8. -/
def utf8Len (l : List Char) : Nat :=
  (l.map Char.utf8Size).sum

/-- The helper `dropCR` of `bufio.ScanLines`: one trailing carriage return is dropped. -/
def dropCR (l : List Char) : List Char :=
  if l.getLast? = some '\r' then l.dropLast else l

/-- The tokens `scanner.Scan()` / `scanner.Text()` deliver for the default scanner
(`bufio.ScanLines`, buffer limit `maxScanTokenSize`) over the rest of the body;
`cur` is the current line read so far, in reverse. A line ends at a line feed or at
the end of the body (then only when non-empty); when a line does not fit the buffer
together with its line feed, `Scan` returns false and the loop of line 74 ends. -/
def scanLinesAux : List Char → List Char → List (List Char)
  | [], cur =>
      if cur = [] then []
      else if utf8Len cur < maxScanTokenSize then [dropCR cur.reverse]
      else []
  | c :: cs, cur =>
      if c = '\n' then
        if utf8Len cur < maxScanTokenSize then dropCR cur.reverse :: scanLinesAux cs []
        else []
      else scanLinesAux cs (c :: cur)

/-- The lines the loop `for scanner.Scan()` of line 74 sees. -/
def scanLines (body : List Char) : List (List Char) :=
  scanLinesAux body []

/-- Go's `unicode.IsSpace`. -/
def isSpace (c : Char) : Bool :=
  c.toNat = 0x09 || c.toNat = 0x0A || c.toNat = 0x0B || c.toNat = 0x0C || c.toNat = 0x0D ||
  c.toNat = 0x20 || c.toNat = 0x85 || c.toNat = 0xA0 || c.toNat = 0x1680 ||
  (0x2000 ≤ c.toNat && c.toNat ≤ 0x200A) || c.toNat = 0x2028 || c.toNat = 0x2029 ||
  c.toNat = 0x202F || c.toNat = 0x205F || c.toNat = 0x3000

/-- Go's `strings.TrimSpace`: leading and trailing white space removed. -/
def trimSpace (l : List Char) : List Char :=
  ((l.dropWhile isSpace).reverse.dropWhile isSpace).reverse

/-- The test of line 76 on the trimmed line:
`!strings.HasPrefix(line, "#") && line != ""`. -/
def isSegmentRef (line : List Char) : Bool :=
  !(line.head? == some '#') && line != []

/-- What `ResolveReference` and `String` use of the parsed playlist URL `baseURL`:
its `Scheme`, its authority as `String` prints it (user information and host) and its
`EscapedPath()`. -/
structure BaseURL where
  scheme : List Char
  authority : List Char
  escapedPath : List Char
  deriving DecidableEq, Repr

/-- The bytes of a character in UTF-8. -/
def utf8Bytes (c : Char) : List Nat :=
  let n := c.toNat
  if n < 0x80 then [n]
  else if n < 0x800 then [0xC0 + n / 64, 0x80 + n % 64]
  else if n < 0x10000 then [0xE0 + n / 4096, 0x80 + n / 64 % 64, 0x80 + n % 64]
  else [0xF0 + n / 262144, 0x80 + n / 4096 % 64, 0x80 + n / 64 % 64, 0x80 + n % 64]

/-- Upper-case hexadecimal digit. -/
def hexDigit (n : Nat) : Char :=
  if n < 10 then Char.ofNat (48 + n) else Char.ofNat (55 + n)

/-- Go's `shouldEscape(c, encodePath)` of `net/url` on a byte: letters, digits and
`- _ . ~ $ & + , / : ; = @` stay, every other byte is escaped. -/
def shouldEscapePath (b : Nat) : Bool :=
  !((97 ≤ b && b ≤ 122) || (65 ≤ b && b ≤ 90) || (48 ≤ b && b ≤ 57) ||
    b = 45 || b = 95 || b = 46 || b = 126 ||
    b = 36 || b = 38 || b = 43 || b = 44 || b = 47 || b = 58 || b = 59 || b = 61 || b = 64)

/-- One byte as `escape(_, encodePath)` writes it. -/
def escapeByte (b : Nat) : List Char :=
  if shouldEscapePath b then ['%', hexDigit (b / 16), hexDigit (b % 16)] else [Char.ofNat b]

/-- `EscapedPath()` of the reference `&url.URL{Path: line}`: the path "*" is kept, every
other path is percent-encoded byte by byte. -/
def escapedRefPath (line : List Char) : List Char :=
  if line = ['*'] then line else (line.map (fun c => ((utf8Bytes c).map escapeByte).flatten)).flatten

/-- The part of a path up to and including its last slash: `base[:i+1]` for
`i = strings.LastIndex(base, "/")`. -/
def upToLastSlash (base : List Char) : List Char :=
  (base.reverse.dropWhile (fun c => c != '/')).reverse

/-- Removal of dot segments in the path resolution of `net/url`: "." is dropped, ".." drops
the element before it. -/
def removeDots : List (List Char) → List (List Char) → List (List Char)
  | [], dst => dst.reverse
  | elem :: rest, dst =>
      if elem = ['.'] then removeDots rest dst
      else if elem = ['.', '.'] then removeDots rest dst.tail
      else removeDots rest (elem :: dst)

/-- The path resolution of `net/url` that `ResolveReference` applies to the escaped base
path and the escaped reference path (RFC 3986, section 5.2; not the `resolvePath` of
`main.go`, which expands `~/` in file names). -/
def urlResolvePath (base ref : List Char) : List Char :=
  let full := if ref = [] then base
    else if ref.head? ≠ some '/' then upToLastSlash base ++ ref
    else ref
  if full = [] then []
  else
    let src := full.splitOn '/'
    let dst := removeDots src []
    let dst := if src.getLast? = some ['.'] ∨ src.getLast? = some ['.', '.'] then dst ++ [[]] else dst
    let joined := List.intercalate ['/'] dst
    '/' :: (if joined.head? = some '/' then joined.tail else joined)

/-- The URL downloaded for a segment line, line 77:
`baseURL.ResolveReference(&url.URL{Path: line}).String()`. The reference has a path
only, so scheme and authority are those of the base and the path is the reference path
resolved against the base path. -/
def resolveSegmentURL (base : BaseURL) (line : List Char) : String :=
  String.mk
    ((if base.scheme = [] then [] else base.scheme ++ [':']) ++
      (if base.scheme = [] ∧ base.authority = [] then [] else ['/', '/'] ++ base.authority) ++
      urlResolvePath base.escapedPath (escapedRefPath line))

/-- One call `downloadSegment(url, filename)` of line 80, with its two arguments (the
callee creates the file `resolvePath(filename)`, the name with a leading `~/` expanded). -/
structure SegmentCall where
  url : String
  filename : String
  deriving DecidableEq, Repr

/-- The loop of lines 74-83 over the scanned lines, with the variable `segmentNumber`. -/
def playlistLoop (base : BaseURL) (pfx : String) :
    List (List Char) → Nat → List SegmentCall
  | [], _ => []
  | tok :: rest, segmentNumber =>
      if isSegmentRef (trimSpace tok) then
        { url := resolveSegmentURL base (trimSpace tok),
          filename := partFileName pfx segmentNumber } ::
          playlistLoop base pfx rest (segmentNumber + 1)
      else playlistLoop base pfx rest segmentNumber

/-- The calls of `downloadSegment` that `downloadFromPlaylist` makes for a playlist body
that was fetched and read (lines 72-83), in order. Every call is taken to return to the
loop: `downloadSegment` logs its errors and returns, and ends the process only through
the `log.Fatalf` of `resolvePath`. -/
def downloadFromPlaylist (base : BaseURL) (pfx : String) (body : List Char) :
    List SegmentCall :=
  playlistLoop base pfx (scanLines body) 1

/-- In the words of the spec: the segment references of a playlist body are its lines
that, after trimming white space, are non-empty and do not start with `#`, in document
order. -/
def segmentRefs (body : List Char) : List (List Char) :=
  ((body.splitOn '\n').map trimSpace).filter
    (fun line => decide (line ≠ [] ∧ line.head? ≠ some '#'))

/-- In the words of the spec: one download per segment reference, the k-th (from 1) of
the resolved reference into `<outputPrefix>_part<k>.ts`. -/
def expectedCalls (base : BaseURL) (pfx : String) (refs : List (List Char)) :
    List SegmentCall :=
  (refs.enumFrom 1).map
    (fun p => { url := resolveSegmentURL base p.2, filename := partFileName pfx p.1 })

/-- The parsed form of `http://host/path/list.m3u8`. -/
def demoBase : BaseURL :=
  { scheme := "http".toList, authority := "host".toList,
    escapedPath := "/path/list.m3u8".toList }

/-- The playlist body of the spec's scenario. -/
def demoBody : List Char :=
  "#comment\nseg1.ts\nhttp://other/seg2.ts\n".toList

/-- A playlist body whose first line has 65536 bytes, followed by the line `seg1.ts`. -/
def longLineBody : List Char :=
  List.replicate 65536 'a' ++ "\nseg1.ts\n".toList

/-! ## Theorems: the capture loop -/

theorem run_nil (T : Nat) (s : CaptureState) : run T s [] = some s := rfl

theorem run_cons_some {T : Nat} {s s' : CaptureState} {e : Event} {es : List Event}
    (h : run T s (e :: es) = some s') :
    ∃ s1 acts, step T s e = some (Outcome.next s1 acts) ∧ run T s1 es = some s' := by
  simp only [run] at h
  split at h
  · next s1 acts heq => exact ⟨s1, acts, heq, h⟩
  · exact absurd h (by simp)

theorem run_append {T : Nat} (es1 es2 : List Event) (s : CaptureState) :
    run T s (es1 ++ es2) = (run T s es1).bind (fun s1 => run T s1 es2) := by
  induction es1 generalizing s with
  | nil => simp [run]
  | cons e es ih =>
    simp only [List.cons_append, run]
    split <;> simp [ih]

theorem run_invariant (T : Nat) (P : CaptureState → Prop) (Q : Event → Prop)
    (hstep : ∀ s e s' acts, P s → Q e → step T s e = some (Outcome.next s' acts) → P s') :
    ∀ (evs : List Event) (s s' : CaptureState), P s → (∀ e ∈ evs, Q e) →
      run T s evs = some s' → P s' := by
  intro evs
  induction evs with
  | nil =>
    intro s s' hP _ h
    simp [run] at h
    exact h ▸ hP
  | cons e es ih =>
    intro s s' hP hwf h
    obtain ⟨s1, acts, h1, h2⟩ := run_cons_some h
    exact ih s1 s' (hstep s e s1 acts hP (hwf e (by simp)) h1)
      (fun e' he' => hwf e' (by simp [he'])) h2

theorem step_next_cases {T : Nat} {s s' : CaptureState} {e : Event} {acts : List Action}
    (h : step T s e = some (Outcome.next s' acts)) :
    (s.control = Control.connecting ∧ e = Event.connectFail ∧ s' = s) ∨
    (s.control = Control.connecting ∧ e = Event.connectOk true ∧
      s' = { s with outputFile := some s.partNumber,
                    files := createFile s.files s.partNumber,
                    control := Control.streaming }) ∨
    (∃ data err c w, s.control = Control.streaming ∧ e = Event.read data err c w ∧
      readIter T s data err c w = Outcome.next s' acts) := by
  cases e with
  | connectFail =>
    simp only [step] at h
    split at h
    · next hc =>
      simp [connectIter] at h
      exact Or.inl ⟨hc, rfl, h.1.symm⟩
    · simp at h
  | connectOk c =>
    simp only [step] at h
    split at h
    · next hc =>
      cases c with
      | false => simp [connectIter] at h
      | true =>
        simp [connectIter] at h
        exact Or.inr (Or.inl ⟨hc, rfl, h.1.symm⟩)
    · simp at h
  | read data err c w =>
    simp only [step] at h
    split at h
    · next hc =>
      simp at h
      exact Or.inr (Or.inr ⟨data, err, c, w, hc, rfl, h⟩)
    · simp at h

theorem readIter_next_cases {T : Nat} {s s' : CaptureState} {data : List Nat}
    {err : Option ReadErr} {c : Bool} {w : Nat} {acts : List Action}
    (h : readIter T s data err c w = Outcome.next s' acts) :
    (data.length = 0 ∧ (err = some ReadErr.eof ∨ err = none) ∧ s' = s ∧
      acts = [Action.sleep idleDelay]) ∨
    (¬ (data.length = 0 ∧ (err = some ReadErr.eof ∨ err = none)) ∧ err ≠ none ∧
      s' = { s with outputFile := none, control := Control.connecting } ∧
      acts = [Action.logLine, Action.closeFile s.outputFile, Action.closeBody,
        Action.sleep reconnectDelay]) ∨
    (err = none ∧ 0 < data.length ∧ T ≤ s.totalBytes + data.length ∧ c = true ∧
      s' = { s with totalBytes := 0,
                    partNumber := s.partNumber + 1,
                    outputFile := some (s.partNumber + 1),
                    files := writeFile (createFile s.files (s.partNumber + 1))
                              (some (s.partNumber + 1)) data w } ∧
      acts = [Action.closeFile s.outputFile, Action.create (s.partNumber + 1)]) ∨
    (err = none ∧ 0 < data.length ∧ s.totalBytes + data.length < T ∧
      s' = { s with totalBytes := s.totalBytes + data.length,
                    files := writeFile s.files s.outputFile data w } ∧
      acts = []) := by
  unfold readIter at h
  split at h
  · next hidle =>
    simp only [Outcome.next.injEq] at h
    exact Or.inl ⟨hidle.1, hidle.2, h.1.symm, h.2.symm⟩
  · next hidle =>
    split at h
    · next herr =>
      simp only [Outcome.next.injEq] at h
      exact Or.inr (Or.inl ⟨hidle, herr, h.1.symm, h.2.symm⟩)
    · next herr =>
      have herr' : err = none := by simpa using herr
      have hpos : 0 < data.length := by
        rcases Nat.eq_zero_or_pos data.length with h0 | h0
        · exact absurd ⟨h0, Or.inr herr'⟩ hidle
        · exact h0
      simp only at h
      split at h
      · next hge =>
        split at h
        · simp at h
        · next hc =>
          simp only [Outcome.next.injEq] at h
          refine Or.inr (Or.inr (Or.inl ⟨herr', hpos, hge, by simpa using hc, h.1.symm, h.2.symm⟩))
      · next hlt =>
        simp only [Outcome.next.injEq] at h
        exact Or.inr (Or.inr (Or.inr ⟨herr', hpos, by omega, h.1.symm, h.2.symm⟩))

theorem fileSize_createFile_same (s : CaptureState) (k : Nat) :
    ((createFile s.files k k).getD []).length = 0 := by
  simp [createFile]

theorem writeFile_size_le (files : Nat → Option (List Nat)) (h : Option Nat) (data : List Nat)
    (w j : Nat) :
    ((writeFile files h data w j).getD []).length ≤ ((files j).getD []).length + data.length := by
  cases h with
  | none => simp [writeFile]
  | some k =>
    simp only [writeFile]
    split
    · simp only [Option.getD_some, List.length_append, List.length_take]
      omega
    · omega

theorem writeFile_other (files : Nat → Option (List Nat)) (k : Nat) (data : List Nat)
    (w j : Nat) (hj : j ≠ k) : writeFile files (some k) data w j = files j := by
  simp [writeFile, hj]

theorem handleInv_init : HandleInv initState := by
  simp [HandleInv, initState]

theorem handleInv_step {T : Nat} {s s' : CaptureState} {e : Event} {acts : List Action}
    (hs : HandleInv s) (h : step T s e = some (Outcome.next s' acts)) : HandleInv s' := by
  rcases step_next_cases h with ⟨hc, -, rfl⟩ | ⟨hc, -, rfl⟩ | ⟨data, err, c, w, hc, -, hr⟩
  · exact hs
  · simp [HandleInv]
  · rcases readIter_next_cases hr with ⟨-, -, rfl, -⟩ | ⟨-, -, rfl, -⟩ | ⟨-, -, -, -, rfl, -⟩ |
      ⟨-, -, -, rfl, -⟩
    · exact hs
    · simp [HandleInv]
    · simp [HandleInv, hc]
    · simpa [HandleInv, hc] using hs.1 hc

theorem handleInv_run {T : Nat} {evs : List Event} {s : CaptureState}
    (h : run T initState evs = some s) : HandleInv s :=
  run_invariant T HandleInv (fun _ => True)
    (fun _ _ _ _ hP _ hst => handleInv_step hP hst) evs initState s handleInv_init
    (fun _ _ => trivial) h

theorem partNumber_step {T : Nat} {s s' : CaptureState} {e : Event} {acts : List Action}
    (h : step T s e = some (Outcome.next s' acts)) :
    (rotates T s e ∧ s'.partNumber = s.partNumber + 1 ∧ s'.totalBytes = 0) ∨
    (¬ rotates T s e ∧ s'.partNumber = s.partNumber ∧
      s'.totalBytes = s.totalBytes + counted e) := by
  rcases step_next_cases h with ⟨-, rfl, rfl⟩ | ⟨-, rfl, rfl⟩ | ⟨data, err, c, w, -, rfl, hr⟩
  · exact Or.inr ⟨by simp [rotates], rfl, by simp [counted]⟩
  · exact Or.inr ⟨by simp [rotates], rfl, by simp [counted]⟩
  · rcases readIter_next_cases hr with ⟨h0, herr, rfl, -⟩ | ⟨hni, herr, rfl, -⟩ |
      ⟨herr, hpos, hge, -, rfl, -⟩ | ⟨herr, hpos, hlt, rfl, -⟩
    · refine Or.inr ⟨by simp [rotates, h0], rfl, ?_⟩
      rcases herr with rfl | rfl <;> simp [counted, h0]
    · refine Or.inr ⟨by simp [rotates, herr], rfl, ?_⟩
      cases err with
      | none => exact absurd rfl herr
      | some x => simp [counted]
    · exact Or.inl ⟨⟨herr, hpos, hge⟩, rfl, rfl⟩
    · subst herr
      exact Or.inr ⟨by simp [rotates]; omega, rfl, by simp [counted]⟩

theorem partNumber_run_le {T : Nat} : ∀ (evs : List Event) (s s' : CaptureState),
    run T s evs = some s' → s.partNumber ≤ s'.partNumber := by
  intro evs
  induction evs with
  | nil =>
    intro s s' h
    simp [run] at h
    subst h
    exact Nat.le_refl _
  | cons e es ih =>
    intro s s' h
    obtain ⟨s1, acts, h1, h2⟩ := run_cons_some h
    have := ih s1 s' h2
    rcases partNumber_step h1 with ⟨-, hp, -⟩ | ⟨-, hp, -⟩ <;> omega

/-- C6. Along every execution of the capture loop the part number starts at 1, a step
raises it by exactly 1 when it rotates and leaves it unchanged otherwise (failed
connect, connect, idle read, read error, plain read), so it never decreases and a value
it has moved past does not come back. -/
theorem partNumber_never_decreases (T : Nat) (evs1 evs2 evs3 : List Event)
    (s1 s2 s3 : CaptureState) (h1 : run T initState evs1 = some s1)
    (h2 : run T s1 evs2 = some s2) (h3 : run T s2 evs3 = some s3) :
    initState.partNumber = 1 ∧ 1 ≤ s1.partNumber ∧
    (∀ e s' acts, step T s1 e = some (Outcome.next s' acts) →
      (rotates T s1 e → s'.partNumber = s1.partNumber + 1) ∧
      (¬ rotates T s1 e → s'.partNumber = s1.partNumber)) ∧
    s1.partNumber ≤ s2.partNumber ∧ s2.partNumber ≤ s3.partNumber ∧
    (s1.partNumber < s2.partNumber → s3.partNumber ≠ s1.partNumber) := by
  have a1 := partNumber_run_le evs1 initState s1 h1
  have a2 := partNumber_run_le evs2 s1 s2 h2
  have a3 := partNumber_run_le evs3 s2 s3 h3
  refine ⟨rfl, a1, ?_, a2, a3, fun hlt => by omega⟩
  intro e s' acts hst
  rcases partNumber_step hst with ⟨hr, hp, -⟩ | ⟨hr, hp, -⟩
  · exact ⟨fun _ => hp, fun hn => absurd hr hn⟩
  · exact ⟨fun hy => absurd hy hr, fun _ => hp⟩

theorem partNumber_never_decreases_witness :
    run 10 initState [Event.connectOk true, goodRead [1, 2, 3]]
      = some (stateAfter 10 [Event.connectOk true, goodRead [1, 2, 3]]) ∧
    run 10 (stateAfter 10 [Event.connectOk true, goodRead [1, 2, 3]])
        [goodRead [1, 2, 3, 4, 5, 6, 7], Event.read [8] (some ReadErr.eof) true 0]
      = some (stateAfter 10 [Event.connectOk true, goodRead [1, 2, 3],
          goodRead [1, 2, 3, 4, 5, 6, 7], Event.read [8] (some ReadErr.eof) true 0]) ∧
    (stateAfter 10 [Event.connectOk true, goodRead [1, 2, 3]]).partNumber = 1 ∧
    (stateAfter 10 [Event.connectOk true, goodRead [1, 2, 3],
      goodRead [1, 2, 3, 4, 5, 6, 7], Event.read [8] (some ReadErr.eof) true 0]).partNumber = 2 ∧
    (stateAfter 10 [Event.connectOk true, goodRead [1, 2, 3],
      goodRead [1, 2, 3, 4, 5, 6, 7], Event.read [8] (some ReadErr.eof) true 0,
      Event.connectFail, Event.connectOk true]).partNumber ≠ 1 :=
  ⟨rfl, rfl, rfl, rfl,
    (partNumber_never_decreases 10 [Event.connectOk true, goodRead [1, 2, 3]]
      [goodRead [1, 2, 3, 4, 5, 6, 7], Event.read [8] (some ReadErr.eof) true 0]
      [Event.connectFail, Event.connectOk true]
      (stateAfter 10 [Event.connectOk true, goodRead [1, 2, 3]])
      (stateAfter 10 [Event.connectOk true, goodRead [1, 2, 3],
          goodRead [1, 2, 3, 4, 5, 6, 7], Event.read [8] (some ReadErr.eof) true 0])
      (stateAfter 10 [Event.connectOk true, goodRead [1, 2, 3],
        goodRead [1, 2, 3, 4, 5, 6, 7], Event.read [8] (some ReadErr.eof) true 0,
        Event.connectFail, Event.connectOk true])
      rfl rfl rfl).2.2.2.2.2 (by decide)⟩

/-- C5. In every step the capture loop can take from a state it can reach (failed
connect, connect, idle read, read error with the reconnect delay, plain read, rotating
read): the byte counter is put back to 0 (it is 0 after the step although the step had
brought it above 0) exactly when the part number goes up by 1 in that step; without an
increment the counter is its old value plus the bytes counted in the step; and after the
step the handle in `outputFile`, when one is open, is the file of the current part
number, one being open whenever the task is streaming. -/
theorem counter_reset_iff_part_increment (T : Nat) (evs : List Event) (s : CaptureState)
    (h : run T initState evs = some s) (e : Event) (s' : CaptureState) (acts : List Action)
    (hstep : step T s e = some (Outcome.next s' acts)) :
    ((s'.totalBytes = 0 ∧ 0 < s.totalBytes + counted e) ↔
      s'.partNumber = s.partNumber + 1) ∧
    (s'.partNumber ≠ s.partNumber + 1 →
      s'.partNumber = s.partNumber ∧ s'.totalBytes = s.totalBytes + counted e) ∧
    (∀ k, s'.outputFile = some k → k = s'.partNumber) ∧
    (s'.control = Control.streaming → s'.outputFile = some s'.partNumber) := by
  have hinv : HandleInv s' := handleInv_step (handleInv_run h) hstep
  refine ⟨?_, ?_, ?_, hinv.1⟩
  · rcases partNumber_step hstep with ⟨hr, hp, ht⟩ | ⟨hr, hp, ht⟩
    · refine ⟨fun _ => hp, fun _ => ⟨ht, ?_⟩⟩
      cases e with
      | read data err c w =>
        obtain ⟨rfl, hpos, -⟩ := hr
        simp only [counted]
        omega
      | connectFail => exact absurd hr (by simp [rotates])
      | connectOk c => exact absurd hr (by simp [rotates])
    · exact ⟨fun hz => by omega, fun hq => by omega⟩
  · intro hne
    rcases partNumber_step hstep with ⟨hr, hp, ht⟩ | ⟨hr, hp, ht⟩
    · exact absurd hp hne
    · exact ⟨hp, ht⟩
  · intro k hk
    cases hctl : s'.control with
    | connecting => rw [hinv.2 hctl] at hk; exact absurd hk (by simp)
    | streaming => rw [hinv.1 hctl] at hk; exact (Option.some.inj hk).symm

theorem counter_reset_iff_part_increment_witness :
    ((stateAfter 10 [Event.connectOk true, goodRead [1, 2, 3],
        goodRead [1, 2, 3, 4, 5, 6, 7]]).totalBytes = 0 ∧
      0 < (stateAfter 10 [Event.connectOk true, goodRead [1, 2, 3]]).totalBytes
        + counted (goodRead [1, 2, 3, 4, 5, 6, 7])) ∧
    (stateAfter 10 [Event.connectOk true, goodRead [1, 2, 3],
        goodRead [1, 2, 3, 4, 5, 6, 7]]).partNumber
      = (stateAfter 10 [Event.connectOk true, goodRead [1, 2, 3]]).partNumber + 1 ∧
    (stateAfter 10 [Event.connectOk true, goodRead [1, 2, 3],
        goodRead [1, 2, 3, 4, 5, 6, 7]]).outputFile = some 2 :=
  ⟨((counter_reset_iff_part_increment 10 [Event.connectOk true, goodRead [1, 2, 3]]
      (stateAfter 10 [Event.connectOk true, goodRead [1, 2, 3]]) rfl
      (goodRead [1, 2, 3, 4, 5, 6, 7])
      (stateAfter 10 [Event.connectOk true, goodRead [1, 2, 3],
        goodRead [1, 2, 3, 4, 5, 6, 7]])
      [Action.closeFile (some 1), Action.create 2] rfl).1).2 rfl, rfl, rfl⟩

theorem step_idle {T : Nat} {s : CaptureState} (hs : s.control = Control.streaming)
    {e : Event} (he : e.isIdleRead) :
    step T s e = some (Outcome.next s [Action.sleep idleDelay]) := by
  cases e with
  | connectFail => exact absurd he (by simp [Event.isIdleRead])
  | connectOk c => exact absurd he (by simp [Event.isIdleRead])
  | read data err c w =>
    have he' : data.length = 0 ∧ (err = some ReadErr.eof ∨ err = none) := he
    simp [step, hs, readIter, he']

theorem run_idle {T : Nat} {s : CaptureState} (hs : s.control = Control.streaming) :
    ∀ (evs : List Event), (∀ e ∈ evs, e.isIdleRead) →
      run T s evs = some s ∧
      trace T s evs = List.replicate evs.length (Action.sleep 1) := by
  intro evs
  induction evs with
  | nil => intro _; exact ⟨rfl, rfl⟩
  | cons e es ih =>
    intro hidle
    have hstep := step_idle (T := T) hs (hidle e (by simp))
    have ih' := ih (fun e' he' => hidle e' (by simp [he']))
    refine ⟨?_, ?_⟩
    · simp only [run, hstep]
      exact ih'.1
    · simp only [trace, hstep, ih'.2, idleDelay, List.length_cons, List.replicate_succ]
      rfl

theorem isIdleRead_eofRead : eofRead.isIdleRead := by
  simp [eofRead, Event.isIdleRead]

/-- C8. From any state in the read loop, for every number of further reads that each
return zero bytes with end-of-stream or with no error, the task is afterwards in the
very same state (streaming on the same connection, same part number, same byte counter,
same files, same handle), and all it has done is sleep one second per read: no
reconnect delay and no connect attempt occurs. -/
theorem idle_reads_never_leave_loop (T : Nat) (s : CaptureState)
    (hs : s.control = Control.streaming) (evs : List Event)
    (hidle : ∀ e ∈ evs, e.isIdleRead) :
    run T s evs = some s ∧
    trace T s evs = List.replicate evs.length (Action.sleep 1) ∧
    Action.sleep 10 ∉ trace T s evs ∧ Action.get ∉ trace T s evs := by
  have key := run_idle (T := T) hs evs hidle
  refine ⟨key.1, key.2, ?_, ?_⟩
  · rw [key.2]
    intro hmem
    have := List.eq_of_mem_replicate hmem
    exact absurd this (by decide)
  · rw [key.2]
    intro hmem
    have := List.eq_of_mem_replicate hmem
    exact absurd this (by decide)

theorem idle_reads_never_leave_loop_witness :
    (stateAfter 10 [Event.connectOk true, goodRead [1, 2, 3]]).control = Control.streaming ∧
    run 10 (stateAfter 10 [Event.connectOk true, goodRead [1, 2, 3]])
        [eofRead, Event.read [] none true 0, eofRead]
      = some (stateAfter 10 [Event.connectOk true, goodRead [1, 2, 3]]) ∧
    trace 10 (stateAfter 10 [Event.connectOk true, goodRead [1, 2, 3]])
        [eofRead, Event.read [] none true 0, eofRead]
      = [Action.sleep 1, Action.sleep 1, Action.sleep 1] :=
  ⟨rfl,
    (idle_reads_never_leave_loop 10 (stateAfter 10 [Event.connectOk true, goodRead [1, 2, 3]])
      rfl [eofRead, Event.read [] none true 0, eofRead]
      (by
        intro e he
        simp only [eofRead, List.mem_cons, List.mem_singleton, List.mem_nil_iff,
          or_false] at he
        rcases he with rfl | rfl | rfl <;> simp [Event.isIdleRead])).1,
    (idle_reads_never_leave_loop 10 (stateAfter 10 [Event.connectOk true, goodRead [1, 2, 3]])
      rfl [eofRead, Event.read [] none true 0, eofRead]
      (by
        intro e he
        simp only [eofRead, List.mem_cons, List.mem_singleton, List.mem_nil_iff,
          or_false] at he
        rcases he with rfl | rfl | rfl <;> simp [Event.isIdleRead])).2.1⟩

/-- C2. For every read result `(len data, err)` received in the read loop:
if it has zero bytes and `err` is nil or end-of-stream, the task sleeps one second and
is in the same state (same connection, part number, byte counter, files and handle);
a step that goes on leaves the read loop exactly when `err` is non-nil and the result is
not zero bytes with end-of-stream; on such a read the task closes the file and the body,
sleeps the 10-second reconnect delay exactly once, keeps part number, byte counter and
files, and what it does next is a connect attempt. The process exits in the read loop
only when a read without error has to rotate and the new file cannot be created. -/
theorem read_loop_left_only_on_error (T : Nat) (s : CaptureState)
    (hs : s.control = Control.streaming) (data : List Nat) (err : Option ReadErr)
    (c : Bool) (w : Nat) :
    (data.length = 0 ∧ (err = none ∨ err = some ReadErr.eof) →
      step T s (Event.read data err c w) = some (Outcome.next s [Action.sleep 1])) ∧
    (∀ s' acts, step T s (Event.read data err c w) = some (Outcome.next s' acts) →
      (s'.control ≠ Control.streaming ↔
        (err ≠ none ∧ ¬ (data.length = 0 ∧ err = some ReadErr.eof)))) ∧
    (err ≠ none ∧ ¬ (data.length = 0 ∧ err = some ReadErr.eof) →
      ∃ s' acts, step T s (Event.read data err c w) = some (Outcome.next s' acts) ∧
        s'.control = Control.connecting ∧
        acts.count (Action.sleep 10) = 1 ∧ Action.get ∉ acts ∧
        s'.partNumber = s.partNumber ∧ s'.totalBytes = s.totalBytes ∧
        s'.files = s.files ∧
        (∀ e o, step T s' e = some o → o.acts.head? = some Action.get)) ∧
    (∀ acts, step T s (Event.read data err c w) = some (Outcome.fatal acts) →
      err = none ∧ 0 < data.length ∧ T ≤ s.totalBytes + data.length ∧ c = false) := by
  refine ⟨?_, ?_, ?_, ?_⟩
  · rintro ⟨h0, herr⟩
    exact step_idle hs (show (Event.read data err c w).isIdleRead from ⟨h0, herr.symm⟩)
  · intro s' acts hst
    rcases step_next_cases hst with ⟨-, he, -⟩ | ⟨-, he, -⟩ | ⟨d, er, c', w', -, he, hr⟩
    · exact absurd he (by simp)
    · exact absurd he (by simp)
    · simp only [Event.read.injEq] at he
      obtain ⟨rfl, rfl, rfl, rfl⟩ := he
      rcases readIter_next_cases hr with ⟨h0, herr, rfl, -⟩ | ⟨hni, herr, rfl, -⟩ |
        ⟨herr, hpos, -, -, rfl, -⟩ | ⟨herr, hpos, -, rfl, -⟩
      · constructor
        · intro hne; exact absurd hs hne
        · rintro ⟨hne, hnot⟩
          rcases herr with h | h
          · exact absurd ⟨h0, h⟩ hnot
          · exact absurd h hne
      · constructor
        · intro _
          refine ⟨herr, fun hh => hni ⟨hh.1, Or.inl hh.2⟩⟩
        · intro _; simp
      · constructor
        · intro hne; exact absurd hs (by simpa using hne)
        · rintro ⟨hne, -⟩; exact absurd herr hne
      · constructor
        · intro hne; exact absurd hs (by simpa using hne)
        · rintro ⟨hne, -⟩; exact absurd herr hne
  · rintro ⟨hne, hnot⟩
    have hni : ¬ (data.length = 0 ∧ (err = some ReadErr.eof ∨ err = none)) := by
      rintro ⟨h0, h | h⟩
      · exact hnot ⟨h0, h⟩
      · exact hne h
    refine ⟨{ s with outputFile := none, control := Control.connecting },
      [Action.logLine, Action.closeFile s.outputFile, Action.closeBody,
        Action.sleep reconnectDelay], ?_, rfl, ?_, ?_, rfl, rfl, rfl, ?_⟩
    · simp only [step, hs, if_true, readIter]
      rw [if_neg hni, if_pos hne]
    · simp [reconnectDelay, List.count_cons]
    · simp
    · intro e o ho
      cases e with
      | connectFail =>
        simp [step, connectIter] at ho
        subst ho
        rfl
      | connectOk c' =>
        simp only [step, if_true] at ho
        cases c' with
        | false =>
          simp [connectIter] at ho
          subst ho
          rfl
        | true =>
          simp [connectIter] at ho
          subst ho
          rfl
      | read d er c' w' => simp [step] at ho
  · intro acts hst
    simp only [step, hs, if_true, Option.some.injEq] at hst
    unfold readIter at hst
    split at hst
    · simp at hst
    · next hni =>
      split at hst
      · simp at hst
      · next herr =>
        have herr' : err = none := by simpa using herr
        have hpos : 0 < data.length := by
          rcases Nat.eq_zero_or_pos data.length with h0 | h0
          · exact absurd ⟨h0, Or.inr herr'⟩ hni
          · exact h0
        simp only at hst
        split at hst
        · next hge =>
          split at hst
          · next hc => exact ⟨herr', hpos, hge, hc⟩
          · simp at hst
        · simp at hst

theorem read_loop_left_only_on_error_witness :
    (stateAfter 10 [Event.connectOk true, goodRead [1, 2, 3]]).control = Control.streaming ∧
    step 10 (stateAfter 10 [Event.connectOk true, goodRead [1, 2, 3]])
        (Event.read [] (some ReadErr.eof) true 0)
      = some (Outcome.next (stateAfter 10 [Event.connectOk true, goodRead [1, 2, 3]])
          [Action.sleep 1]) :=
  ⟨rfl,
    (read_loop_left_only_on_error 10 (stateAfter 10 [Event.connectOk true, goodRead [1, 2, 3]])
      rfl [] (some ReadErr.eof) true 0).1 ⟨rfl, Or.inr rfl⟩⟩

theorem concatFiles_congr {f g : Nat → Option (List Nat)} {lo : Nat} :
    ∀ n, (∀ j, lo ≤ j → j < lo + n → f j = g j) → concatFiles f lo n = concatFiles g lo n := by
  intro n
  induction n with
  | zero => intro _; rfl
  | succ n ih =>
    intro h
    simp only [concatFiles]
    rw [ih (fun j h1 h2 => h j h1 (by omega)), h (lo + n) (by omega) (by omega)]

theorem partsConcat_plain (s : CaptureState) (lo : Nat) (hlo : lo ≤ s.partNumber)
    (data : List Nat) (tb : Nat) :
    partsConcat { s with totalBytes := tb,
                         files := writeFile s.files (some s.partNumber) data data.length } lo
      = partsConcat s lo ++ data := by
  simp only [partsConcat]
  obtain ⟨m, hm⟩ : ∃ m, s.partNumber + 1 - lo = m + 1 := ⟨s.partNumber - lo, by omega⟩
  rw [hm]
  simp only [concatFiles]
  have hidx : lo + m = s.partNumber := by omega
  rw [concatFiles_congr (g := s.files) m (fun j h1 h2 =>
    writeFile_other _ _ _ _ _ (by omega))]
  rw [hidx]
  simp [writeFile, List.append_assoc]

theorem partsConcat_rotate (s : CaptureState) (lo : Nat) (hlo : lo ≤ s.partNumber)
    (data : List Nat) :
    partsConcat { s with totalBytes := 0,
                         partNumber := s.partNumber + 1,
                         outputFile := some (s.partNumber + 1),
                         files := writeFile (createFile s.files (s.partNumber + 1))
                                    (some (s.partNumber + 1)) data data.length } lo
      = partsConcat s lo ++ data := by
  simp only [partsConcat]
  obtain ⟨m, hm⟩ : ∃ m, s.partNumber + 1 - lo = m ∧ s.partNumber + 1 + 1 - lo = m + 1 :=
    ⟨s.partNumber + 1 - lo, rfl, by omega⟩
  rw [hm.1, hm.2]
  simp only [concatFiles]
  have hidx : lo + m = s.partNumber + 1 := by omega
  rw [concatFiles_congr (g := s.files) m (fun j h1 h2 => by
    rw [writeFile_other _ _ _ _ _ (by omega)]
    simp only [createFile]
    rw [if_neg (by omega)])]
  rw [hidx]
  simp [writeFile, createFile]

theorem step_fullRead_continue {T : Nat} {s : CaptureState} {lo : Nat}
    (hctl : s.control = Control.streaming) (hout : s.outputFile = some s.partNumber)
    (hlo : lo ≤ s.partNumber) (r : List Nat × Option ReadErr) (hr : endsLoop r = false) :
    ∃ s' acts, step T s (fullRead r) = some (Outcome.next s' acts) ∧
      s'.control = Control.streaming ∧ s'.outputFile = some s'.partNumber ∧
      lo ≤ s'.partNumber ∧
      partsConcat s' lo = partsConcat s lo ++ (if r.2 = none then r.1 else []) := by
  obtain ⟨data, err⟩ := r
  have hr' : ¬ (err ≠ none ∧ ¬ (data.length = 0 ∧ err = some ReadErr.eof)) := by
    simpa only [endsLoop, decide_eq_false_iff_not] using hr
  by_cases hidle : data.length = 0 ∧ (err = some ReadErr.eof ∨ err = none)
  · refine ⟨s, [Action.sleep idleDelay], step_idle hctl hidle, hctl, hout, hlo, ?_⟩
    have hnil : data = [] := List.length_eq_zero.mp hidle.1
    simp [hnil]
  · have herr : err = none := by
      by_contra hne
      exact hr' ⟨hne, fun hh => hidle ⟨hh.1, Or.inl hh.2⟩⟩
    subst herr
    have hpos : 0 < data.length := by
      rcases Nat.eq_zero_or_pos data.length with h0 | h0
      · exact absurd ⟨h0, Or.inr rfl⟩ hidle
      · exact h0
    by_cases hge : T ≤ s.totalBytes + data.length
    · refine ⟨{ s with totalBytes := 0,
                       partNumber := s.partNumber + 1,
                       outputFile := some (s.partNumber + 1),
                       files := writeFile (createFile s.files (s.partNumber + 1))
                                  (some (s.partNumber + 1)) data data.length },
        [Action.closeFile s.outputFile, Action.create (s.partNumber + 1)],
        ?_, hctl, rfl, ?_, ?_⟩
      · have hlen : data.length ≠ 0 := by omega
        have hnil : data ≠ [] := fun h => hlen (by simp [h])
        simp [step, fullRead, hctl, readIter, hnil, hge]
      · show lo ≤ s.partNumber + 1
        omega
      · simpa using partsConcat_rotate s lo hlo data
    · refine ⟨{ s with totalBytes := s.totalBytes + data.length,
                       files := writeFile s.files s.outputFile data data.length },
        [], ?_, hctl, hout, hlo, ?_⟩
      · have hlen : data.length ≠ 0 := by omega
        have hnil : data ≠ [] := fun h => hlen (by simp [h])
        have hlt : s.totalBytes + data.length < T := by omega
        simp [step, fullRead, hctl, readIter, hnil, hlt]
      · simp only [hout, if_true]
        exact partsConcat_plain s lo hlo data (s.totalBytes + data.length)

theorem run_fullReads_continue {T : Nat} {l : Nat} :
    ∀ (reads : List (List Nat × Option ReadErr)) (s : CaptureState),
      s.control = Control.streaming → s.outputFile = some s.partNumber → l ≤ s.partNumber →
      (∀ r ∈ reads, endsLoop r = false) →
      ∃ s', run T s (reads.map fullRead) = some s' ∧
        s'.control = Control.streaming ∧ s'.outputFile = some s'.partNumber ∧
        l ≤ s'.partNumber ∧
        partsConcat s' l = partsConcat s l ++
          ((reads.filter (fun r => decide (r.2 = none))).map Prod.fst).flatten := by
  intro reads
  induction reads with
  | nil =>
    intro s hctl hout hlo _
    exact ⟨s, rfl, hctl, hout, hlo, by simp⟩
  | cons r rs ih =>
    intro s hctl hout hlo hall
    obtain ⟨s1, acts, hst, hc1, ho1, hl1, hp1⟩ :=
      step_fullRead_continue (T := T) hctl hout hlo r (hall r (by simp))
    obtain ⟨s2, hrun, hc2, ho2, hl2, hp2⟩ :=
      ih s1 hc1 ho1 hl1 (fun r' hr' => hall r' (by simp [hr']))
    refine ⟨s2, ?_, hc2, ho2, hl2, ?_⟩
    · simp only [List.map_cons, run, hst]
      exact hrun
    · rw [hp2, hp1, List.append_assoc]
      congr 1
      by_cases hn : r.2 = none
      · simp [List.filter_cons, hn]
      · simp [List.filter_cons, hn]

theorem dropWhile_head_not {α : Type} (p : α → Bool) :
    ∀ (l : List α) (r : α), (l.dropWhile p).head? = some r → p r = false := by
  intro l
  induction l with
  | nil => intro r h; simp at h
  | cons a as ih =>
    intro r h
    by_cases hp : p a = true
    · rw [List.dropWhile_cons_of_pos hp] at h
      exact ih r h
    · rw [List.dropWhile_cons_of_neg hp] at h
      simp only [List.head?_cons, Option.some.injEq] at h
      subst h
      simpa using hp

theorem step_break {T : Nat} {s : CaptureState} (hctl : s.control = Control.streaming)
    {data : List Nat} {err : Option ReadErr} (c : Bool) (w : Nat)
    (hend : err ≠ none ∧ ¬ (data.length = 0 ∧ err = some ReadErr.eof)) :
    step T s (Event.read data err c w) =
      some (Outcome.next { s with outputFile := none, control := Control.connecting }
        [Action.logLine, Action.closeFile s.outputFile, Action.closeBody,
          Action.sleep reconnectDelay]) := by
  have hni : ¬ (data.length = 0 ∧ (err = some ReadErr.eof ∨ err = none)) := by
    rintro ⟨h0, h | h⟩
    · exact hend.2 ⟨h0, h⟩
    · exact hend.1 h
  simp only [step, hctl, if_true, readIter]
  rw [if_neg hni, if_pos hend.1]

/-- C10. Within one connection (from a successful connect on), when no file operation
fails: the part files of that connection, from the part that was current at the connect
up to the current part, concatenated in increasing part-number order, hold exactly the
chunks of the reads that returned no error, in read order, up to the first read whose
error ends the read loop (a non-nil error other than zero bytes with end-of-stream); the
chunk returned together with that error, end-of-stream included, is written to no file
and not added to `totalBytes`. -/
theorem connection_files_hold_error_free_chunks (T : Nat) (s0 s1 : CaptureState)
    (acts0 : List Action)
    (hconn : step T s0 (Event.connectOk true) = some (Outcome.next s1 acts0))
    (reads : List (List Nat × Option ReadErr)) :
    ∃ s2, run T s1 ((reads.takeWhile (fun r => !endsLoop r)).map fullRead) = some s2 ∧
      s2.control = Control.streaming ∧
      partsConcat s2 s0.partNumber = (chunksBeforeError reads).flatten ∧
      ∀ r, (reads.dropWhile (fun r => !endsLoop r)).head? = some r →
        ∃ s3 acts, step T s2 (fullRead r) = some (Outcome.next s3 acts) ∧
          s3.control = Control.connecting ∧ s3.files = s2.files ∧
          s3.totalBytes = s2.totalBytes ∧ s3.partNumber = s2.partNumber ∧
          partsConcat s3 s0.partNumber = (chunksBeforeError reads).flatten := by
  have hs1 : s1 = { s0 with outputFile := some s0.partNumber,
                            files := createFile s0.files s0.partNumber,
                            control := Control.streaming } := by
    rcases step_next_cases hconn with ⟨-, he, -⟩ | ⟨-, -, h⟩ | ⟨d, er, c, w, -, he, -⟩
    · exact absurd he (by simp)
    · exact h
    · exact absurd he (by simp)
  have hstart : partsConcat s1 s0.partNumber = [] := by
    subst hs1
    simp [partsConcat, concatFiles, createFile]
  have hpn : s1.partNumber = s0.partNumber := by subst hs1; rfl
  obtain ⟨s2, hrun, hc2, ho2, hl2, hp2⟩ :=
    run_fullReads_continue (T := T) (l := s0.partNumber)
      (reads.takeWhile (fun r => !endsLoop r)) s1 (by subst hs1; rfl) (by subst hs1; rfl)
      (by omega)
      (fun r hr => by simpa using List.mem_takeWhile_imp hr)
  have hcat : partsConcat s2 s0.partNumber = (chunksBeforeError reads).flatten := by
    rw [hp2, hstart, List.nil_append]
    rfl
  refine ⟨s2, hrun, hc2, hcat, ?_⟩
  intro r hr
  have hend : endsLoop r = true := by
    have := dropWhile_head_not (fun r => !endsLoop r) reads r hr
    simpa using this
  have hend' : r.2 ≠ none ∧ ¬ (r.1.length = 0 ∧ r.2 = some ReadErr.eof) := by
    simpa only [endsLoop, decide_eq_true_eq] using hend
  exact ⟨_, _, step_break hc2 true r.1.length hend', rfl, rfl, rfl, rfl, hcat⟩

theorem connection_files_hold_error_free_chunks_witness :
    step 10 initState (Event.connectOk true)
      = some (Outcome.next (stateAfter 10 [Event.connectOk true])
          [Action.get, Action.create 1]) ∧
    ∃ s2, run 10 (stateAfter 10 [Event.connectOk true])
        ((List.takeWhile (fun r => !endsLoop r)
          [([1, 2, 3], none), ([], some ReadErr.eof), ([4, 5, 6, 7, 8, 9, 10], none),
           ([11, 12], some ReadErr.eof), ([13], none)]).map fullRead) = some s2 ∧
      s2.control = Control.streaming ∧
      partsConcat s2 initState.partNumber = [1, 2, 3, 4, 5, 6, 7, 8, 9, 10] :=
  ⟨rfl,
    (connection_files_hold_error_free_chunks 10 initState (stateAfter 10 [Event.connectOk true])
      [Action.get, Action.create 1] rfl
      [([1, 2, 3], none), ([], some ReadErr.eof), ([4, 5, 6, 7, 8, 9, 10], none),
       ([11, 12], some ReadErr.eof), ([13], none)]).imp
      (fun _ h => ⟨h.1, h.2.1, h.2.2.1⟩)⟩

/-- With threshold 10, a connect, a read of 10 bytes and a read of 9 bytes leave 19
bytes in part 2 while `totalBytes` is 9: the chunk of the rotating read is not counted. -/
theorem part_file_exceeds_threshold_10 :
    run 10 initState
        [Event.connectOk true, goodRead (List.replicate 10 0), goodRead (List.replicate 9 0)]
      = some (stateAfter 10
          [Event.connectOk true, goodRead (List.replicate 10 0),
            goodRead (List.replicate 9 0)]) ∧
    fileSize (stateAfter 10
      [Event.connectOk true, goodRead (List.replicate 10 0),
        goodRead (List.replicate 9 0)]) 2 = 19 ∧
    (stateAfter 10
      [Event.connectOk true, goodRead (List.replicate 10 0),
        goodRead (List.replicate 9 0)]).totalBytes = 9 := by
  refine ⟨rfl, ?_, ?_⟩ <;> decide

theorem run_plain_replicate {T : Nat} (d : List Nat) (L : Nat) (hL : d.length = L)
    (hd : 0 < L) (k : Nat) :
    ∀ (n : Nat) (s : CaptureState), s.control = Control.streaming →
      s.outputFile = some k → s.totalBytes + n * L < T →
      ∃ s', run T s (List.replicate n (goodRead d)) = some s' ∧
        s'.control = Control.streaming ∧ s'.outputFile = some k ∧
        s'.partNumber = s.partNumber ∧
        s'.totalBytes = s.totalBytes + n * L ∧
        fileSize s' k = fileSize s k + n * L := by
  intro n
  induction n with
  | zero =>
    intro s hc ho _
    exact ⟨s, rfl, hc, ho, rfl, by simp, by simp⟩
  | succ n ih =>
    intro s hc ho hlt
    have hnil : d ≠ [] := fun h => by rw [h] at hL; simp at hL; omega
    have hmul : (n + 1) * L = n * L + L := Nat.succ_mul n L
    have hlt1 : s.totalBytes + d.length < T := by
      rw [hL]
      omega
    have hstep : step T s (goodRead d) = some (Outcome.next
        { s with totalBytes := s.totalBytes + d.length,
                 files := writeFile s.files s.outputFile d d.length } []) := by
      simp [step, goodRead, hc, readIter, hnil, hlt1]
    obtain ⟨s', hrun, hc', ho', hp', ht', hf'⟩ :=
      ih { s with totalBytes := s.totalBytes + d.length,
                  files := writeFile s.files s.outputFile d d.length } hc ho
        (by
          show s.totalBytes + d.length + n * L < T
          rw [hL]
          omega)
    refine ⟨s', ?_, hc', ho', hp', ?_, ?_⟩
    · simp only [List.replicate_succ, run, hstep]
      exact hrun
    · rw [ht']
      show s.totalBytes + d.length + n * L = s.totalBytes + (n + 1) * L
      rw [hL]
      omega
    · rw [hf']
      have hsz : fileSize { s with totalBytes := s.totalBytes + d.length,
                                   files := writeFile s.files s.outputFile d d.length } k
          = fileSize s k + d.length := by
        simp [fileSize, ho, writeFile]
      rw [hsz, hL]
      omega

theorem run_cons_next {T : Nat} {s s' : CaptureState} {e : Event} {acts : List Action}
    {es : List Event} (h : step T s e = some (Outcome.next s' acts)) :
    run T s (e :: es) = run T s' es := by
  simp only [run, h]

theorem fullChunk_length : fullChunk.length = 4096 :=
  List.length_replicate 4096 0

theorem fullChunk_ne_nil : fullChunk ≠ [] := by
  intro h
  have := fullChunk_length
  rw [h] at this
  exact absurd this (by decide)

theorem step_rotate {T : Nat} {s : CaptureState} (hc : s.control = Control.streaming)
    {d : List Nat} (hd : d ≠ []) (hge : T ≤ s.totalBytes + d.length) :
    step T s (goodRead d) = some (Outcome.next
      { s with totalBytes := 0,
               partNumber := s.partNumber + 1,
               outputFile := some (s.partNumber + 1),
               files := writeFile (createFile s.files (s.partNumber + 1))
                          (some (s.partNumber + 1)) d d.length }
      [Action.closeFile s.outputFile, Action.create (s.partNumber + 1)]) := by
  simp [step, goodRead, hc, readIter, hd, hge]

theorem step_plain {T : Nat} {s : CaptureState} (hc : s.control = Control.streaming)
    {d : List Nat} (hd : d ≠ []) (hlt : s.totalBytes + d.length < T) :
    step T s (goodRead d) = some (Outcome.next
      { s with totalBytes := s.totalBytes + d.length,
               files := writeFile s.files s.outputFile d d.length } []) := by
  simp [step, goodRead, hc, readIter, hd, hlt]

theorem fileSize_rotated (s : CaptureState) (d : List Nat) :
    fileSize { s with totalBytes := 0,
                      partNumber := s.partNumber + 1,
                      outputFile := some (s.partNumber + 1),
                      files := writeFile (createFile s.files (s.partNumber + 1))
                                 (some (s.partNumber + 1)) d d.length }
      (s.partNumber + 1) = d.length := by
  simp [fileSize, writeFile, createFile]

/-- C1 on the program's own constant: with `maxFileSize` = 4 GiB and reads of at most
4096 bytes, after `overflowEvents` the file of part 2 holds 4 GiB + 1 bytes, more than
`maxFileSize`, while `totalBytes` is 4 GiB - 4095. -/
theorem part_file_exceeds_maxFileSize :
    (∀ e ∈ overflowEvents, e.wellFormed) ∧
    ∃ s, run maxFileSize initState overflowEvents = some s ∧
      s.partNumber = 2 ∧ fileSize s 2 = maxFileSize + 1 ∧
      s.totalBytes + 4095 = maxFileSize := by
  constructor
  · intro e he
    simp only [overflowEvents, List.mem_cons, List.mem_append, List.mem_replicate,
      List.mem_singleton, List.mem_nil_iff, or_false] at he
    have hfull : (goodRead fullChunk).wellFormed := by
      show fullChunk.length ≤ bufSize
      rw [fullChunk_length]
      decide
    rcases he with rfl | ⟨-, rfl⟩ | rfl | ⟨-, rfl⟩ | rfl
    · trivial
    · exact hfull
    · exact hfull
    · exact hfull
    · show [0].length ≤ bufSize
      decide
  · have hT : maxFileSize = 4294967296 := by decide
    have h10 : (stateAfter maxFileSize [Event.connectOk true]).totalBytes = 0 := rfl
    have hst1 : step maxFileSize initState (Event.connectOk true)
        = some (Outcome.next (stateAfter maxFileSize [Event.connectOk true])
            [Action.get, Action.create 1]) := rfl
    obtain ⟨s2, hrun2, hc2, ho2, hp2, ht2, hf2⟩ :=
      run_plain_replicate (T := maxFileSize) fullChunk 4096 fullChunk_length (by decide) 1
        1048575 (stateAfter maxFileSize [Event.connectOk true]) rfl rfl
        (by rw [h10, hT]; decide)
    rw [h10] at ht2
    have hp2' : s2.partNumber = 1 := hp2
    have hstep3 := step_rotate (T := maxFileSize) hc2 fullChunk_ne_nil
      (by rw [ht2, fullChunk_length, hT])
    obtain ⟨s4, hrun4, hc4, ho4, hp4, ht4, hf4⟩ :=
      run_plain_replicate (T := maxFileSize) fullChunk 4096 fullChunk_length (by decide)
        (s2.partNumber + 1) 1048575
        { s2 with totalBytes := 0,
                  partNumber := s2.partNumber + 1,
                  outputFile := some (s2.partNumber + 1),
                  files := writeFile (createFile s2.files (s2.partNumber + 1))
                             (some (s2.partNumber + 1)) fullChunk fullChunk.length }
        hc2 rfl
        (by
          show 0 + 1048575 * 4096 < maxFileSize
          rw [hT]
          decide)
    rw [fileSize_rotated, fullChunk_length] at hf4
    have ht4' : s4.totalBytes = 0 + 1048575 * 4096 := ht4
    have hp4' : s4.partNumber = s2.partNumber + 1 := hp4
    have hstep5 := step_plain (T := maxFileSize) hc4 (d := [0]) (by simp)
      (by rw [ht4', hT]; decide)
    refine ⟨{ s4 with totalBytes := s4.totalBytes + [0].length,
                      files := writeFile s4.files s4.outputFile [0] [0].length }, ?_, ?_, ?_, ?_⟩
    · have h1 : run maxFileSize initState overflowEvents
          = run maxFileSize (stateAfter maxFileSize [Event.connectOk true])
              (List.replicate 1048575 (goodRead fullChunk) ++
                goodRead fullChunk ::
                  (List.replicate 1048575 (goodRead fullChunk) ++ [goodRead [0]])) := by
        unfold overflowEvents
        exact run_cons_next hst1
      rw [h1, run_append, hrun2, Option.some_bind, run_cons_next hstep3, run_append, hrun4,
        Option.some_bind, run_cons_next hstep5]
      rfl
    · show s4.partNumber = 2
      rw [hp4', hp2']
    · have : fileSize { s4 with totalBytes := s4.totalBytes + [0].length,
                                files := writeFile s4.files s4.outputFile [0] [0].length }
            (s2.partNumber + 1)
          = fileSize s4 (s2.partNumber + 1) + 1 := by
        simp [fileSize, ho4, writeFile]
      rw [hp2'] at this hf4
      rw [this, hf4, hT]
    · show s4.totalBytes + [0].length + 4095 = maxFileSize
      rw [ht4', hT]
      rfl

theorem chunkInv_init {T : Nat} (hT : 0 < T) : ChunkInv T initState 0 := by
  refine ⟨handleInv_init, hT, fun k => ?_, Nat.zero_le _, ?_, Nat.le_refl _, fun _ => rfl⟩
  · simp [fileSize, initState]; omega
  · simp [fileSize, initState]

theorem chunkInv_step {T : Nat} (hT : 0 < T) {s s' : CaptureState} {c : Nat} {e : Event}
    {acts : List Action} (hs : ChunkInv T s c) (hwf : e.wellFormed)
    (h : step T s e = some (Outcome.next s' acts)) : ChunkInv T s' (chunkAfter T s c e) := by
  obtain ⟨hh, htb, hall, hc, hcur, hpn, hone⟩ := hs
  have hh' : HandleInv s' := handleInv_step hh h
  rcases step_next_cases h with ⟨-, rfl, hs'⟩ | ⟨-, rfl, rfl⟩ | ⟨data, err, cr, w, hctl, rfl, hr⟩
  · rw [hs']
    exact ⟨hh, htb, hall, hc, hcur, hpn, hone⟩
  · refine ⟨hh', htb, fun k => ?_, Nat.zero_le _, ?_, hpn, fun _ => rfl⟩
    · have := hall k
      simp only [fileSize, createFile] at this ⊢
      split
      · simp; omega
      · exact this
    · simp [fileSize, createFile, chunkAfter]
  · have hlen : data.length ≤ bufSize := hwf
    rcases readIter_next_cases hr with ⟨h0, -, hs', -⟩ | ⟨-, herr, rfl, -⟩ |
      ⟨herr, hpos, hge, -, rfl, -⟩ | ⟨herr, hpos, hlt, rfl, -⟩
    · have hca : chunkAfter T s c (Event.read data err cr w) = c := by
        simp only [chunkAfter]
        rw [if_neg (by omega)]
      rw [hca, hs']
      exact ⟨hh, htb, hall, hc, hcur, hpn, hone⟩
    · have hca : chunkAfter T s c (Event.read data err cr w) = c := by
        simp only [chunkAfter]
        rw [if_neg (fun hh => herr hh.1)]
      rw [hca]
      exact ⟨hh', htb, hall, hc, hcur, hpn, hone⟩
    · have hca : chunkAfter T s c (Event.read data err cr w) = (data.take w).length := by
        simp only [chunkAfter]
        rw [if_pos ⟨herr, hpos, hge⟩]
      rw [hca]
      have htake : (data.take w).length ≤ data.length := by
        simp only [List.length_take]
        omega
      have hnew : fileSize
          { s with totalBytes := 0,
                   partNumber := s.partNumber + 1,
                   outputFile := some (s.partNumber + 1),
                   files := writeFile (createFile s.files (s.partNumber + 1))
                              (some (s.partNumber + 1)) data w } (s.partNumber + 1)
          = (data.take w).length := by
        simp [fileSize, writeFile, createFile]
      have hold : ∀ k, k ≠ s.partNumber + 1 → fileSize
          { s with totalBytes := 0,
                   partNumber := s.partNumber + 1,
                   outputFile := some (s.partNumber + 1),
                   files := writeFile (createFile s.files (s.partNumber + 1))
                              (some (s.partNumber + 1)) data w } k = fileSize s k := by
        intro k hk
        simp only [fileSize]
        rw [writeFile_other _ _ _ _ _ hk]
        simp only [createFile]
        rw [if_neg hk]
      refine ⟨hh', hT, fun k => ?_, by omega, ?_, Nat.le_succ_of_le hpn, fun h1 => ?_⟩
      rotate_left 2
      · have h1' : s.partNumber + 1 = 1 := h1
        omega
      · by_cases hk : k = s.partNumber + 1
        · subst hk
          rw [hnew]
          omega
        · rw [hold k hk]
          exact hall k
      · show fileSize _ (s.partNumber + 1) ≤ 0 + (data.take w).length
        rw [hnew]
        omega
    · have hca : chunkAfter T s c (Event.read data err cr w) = c := by
        simp only [chunkAfter]
        rw [if_neg (fun hh => by omega)]
      rw [hca]
      have hout : s.outputFile = some s.partNumber := hh.1 hctl
      have hnew : ∀ k, fileSize
          { s with totalBytes := s.totalBytes + data.length,
                   files := writeFile s.files s.outputFile data w } k
          ≤ if k = s.partNumber then fileSize s k + data.length else fileSize s k := by
        intro k
        simp only [fileSize, hout]
        split
        · exact writeFile_size_le _ _ _ _ _
        · next hk =>
          rw [writeFile_other _ _ _ _ _ hk]
      refine ⟨hh', hlt, fun k => ?_, hc, ?_, hpn, hone⟩
      · have h1 := hnew k
        have h2 := hall k
        split at h1
        · next hk => subst hk; omega
        · omega
      · have h1 := hnew s.partNumber
        simp only [if_true] at h1
        show fileSize _ s.partNumber ≤ s.totalBytes + data.length + c
        omega

theorem chunkInv_run {T : Nat} (hT : 0 < T) :
    ∀ (evs : List Event) (s s' : CaptureState) (c : Nat), ChunkInv T s c →
      (∀ e ∈ evs, e.wellFormed) → run T s evs = some s' →
      ChunkInv T s' (chunkAlong T s c evs) := by
  intro evs
  induction evs with
  | nil =>
    intro s s' c hP _ h
    simp [run] at h
    subst h
    exact hP
  | cons e es ih =>
    intro s s' c hP hwf h
    obtain ⟨s1, acts, h1, h2⟩ := run_cons_some h
    have hstep := chunkInv_step hT hP (hwf e (by simp)) h1
    have := ih s1 s' (chunkAfter T s c e) hstep (fun e' he' => hwf e' (by simp [he'])) h2
    simpa only [chunkAlong, h1] using this

theorem rotatingEvents_wellFormed : ∀ e ∈ rotatingEvents, e.wellFormed := by
  intro e he
  simp only [rotatingEvents, goodRead, List.mem_cons, List.mem_singleton, List.mem_nil_iff,
    or_false] at he
  rcases he with rfl | rfl | rfl | rfl <;> simp [Event.wellFormed, bufSize]

/-- C9 (amended). With a threshold `T > 0` (4 GiB in the program) and reads of at most
4096 bytes, after every sequence of connects, reads, failed writes and reconnects:
`totalBytes < T`; the file of the current part holds at most `totalBytes` bytes plus the
bytes of the one chunk that was written into it at its rotation, a chunk of at most 4096
bytes (no chunk, 0 bytes, while part 1 is current); and every part file, current or
rotated away, holds fewer than `T + 4096` bytes. -/
theorem current_part_within_counter_plus_rotation_chunk (T : Nat) (hT : 0 < T)
    (evs : List Event) (hwf : ∀ e ∈ evs, e.wellFormed) (s : CaptureState)
    (h : run T initState evs = some s) :
    s.totalBytes < T ∧
    fileSize s s.partNumber ≤ s.totalBytes + rotationChunk T evs ∧
    rotationChunk T evs ≤ 4096 ∧
    (s.partNumber = 1 → rotationChunk T evs = 0 ∧ fileSize s 1 ≤ s.totalBytes) ∧
    (∀ k, fileSize s k < T + 4096) := by
  obtain ⟨-, htb, hall, hc, hcur, -, hone⟩ :=
    chunkInv_run hT evs initState s 0 (chunkInv_init hT) hwf h
  refine ⟨htb, hcur, hc, fun h1 => ⟨hone h1, ?_⟩, hall⟩
  have h0 := hone h1
  have hcur' : fileSize s s.partNumber ≤ s.totalBytes + chunkAlong T initState 0 evs := hcur
  rw [h0, h1] at hcur'
  exact hcur'

theorem current_part_within_counter_plus_rotation_chunk_witness :
    run 10 initState rotatingEvents = some (stateAfter 10 rotatingEvents) ∧
    rotationChunk 10 rotatingEvents = 7 ∧
    (stateAfter 10 rotatingEvents).partNumber = 2 ∧
    (stateAfter 10 rotatingEvents).totalBytes = 1 ∧
    fileSize (stateAfter 10 rotatingEvents) 2 = 8 ∧
    fileSize (stateAfter 10 rotatingEvents) (stateAfter 10 rotatingEvents).partNumber
      ≤ (stateAfter 10 rotatingEvents).totalBytes + rotationChunk 10 rotatingEvents :=
  ⟨rfl, by decide, rfl, rfl, by decide,
    (current_part_within_counter_plus_rotation_chunk 10 (by decide) rotatingEvents
      rotatingEvents_wellFormed (stateAfter 10 rotatingEvents) rfl).2.1⟩

theorem fileSize_rotated_other (s : CaptureState) (d : List Nat) (k : Nat)
    (hk : k ≠ s.partNumber + 1) :
    fileSize { s with totalBytes := 0,
                      partNumber := s.partNumber + 1,
                      outputFile := some (s.partNumber + 1),
                      files := writeFile (createFile s.files (s.partNumber + 1))
                                 (some (s.partNumber + 1)) d d.length } k
      = fileSize s k := by
  simp only [fileSize]
  rw [writeFile_other _ _ _ _ _ hk]
  simp only [createFile]
  rw [if_neg hk]

theorem rotated_away_at_threshold_5000 :
    (∀ e ∈ rotatedAwayEvents, e.wellFormed) ∧
    ∃ s, run 5000 initState rotatedAwayEvents = some s ∧
      s.partNumber = 2 ∧ s.totalBytes = 0 ∧ fileSize s 1 = 4999 ∧
      ¬ fileSize s 1 ≤ s.totalBytes + 4096 := by
  have h903 : (List.replicate 903 0).length = 903 := List.length_replicate 903 0
  constructor
  · intro e he
    simp only [rotatedAwayEvents, List.mem_cons, List.mem_singleton, List.mem_nil_iff,
      or_false] at he
    rcases he with rfl | rfl | rfl | rfl
    · trivial
    · show fullChunk.length ≤ bufSize
      rw [fullChunk_length]
      decide
    · show (List.replicate 903 0).length ≤ bufSize
      rw [h903]
      decide
    · show [0].length ≤ bufSize
      decide
  · have hst1 : step 5000 initState (Event.connectOk true)
        = some (Outcome.next (stateAfter 5000 [Event.connectOk true])
            [Action.get, Action.create 1]) := rfl
    have h10 : (stateAfter 5000 [Event.connectOk true]).totalBytes = 0 := rfl
    have hf1 : fileSize (stateAfter 5000 [Event.connectOk true]) 1 = 0 := rfl
    obtain ⟨s2, hrun2, hc2, ho2, hp2, ht2, hf2⟩ :=
      run_plain_replicate (T := 5000) fullChunk 4096 fullChunk_length (by decide) 1 1
        (stateAfter 5000 [Event.connectOk true]) rfl rfl (by rw [h10]; decide)
    rw [h10] at ht2
    rw [hf1] at hf2
    obtain ⟨s3, hrun3, hc3, ho3, hp3, ht3, hf3⟩ :=
      run_plain_replicate (T := 5000) (List.replicate 903 0) 903 h903 (by decide) 1 1
        s2 hc2 ho2 (by rw [ht2]; decide)
    rw [ht2] at ht3
    rw [hf2] at hf3
    have hp3' : s3.partNumber = 1 := by rw [hp3, hp2]; rfl
    have hstep4 := step_rotate (T := 5000) hc3 (d := [0]) (by simp)
      (by rw [ht3]; decide)
    refine ⟨{ s3 with totalBytes := 0,
                      partNumber := s3.partNumber + 1,
                      outputFile := some (s3.partNumber + 1),
                      files := writeFile (createFile s3.files (s3.partNumber + 1))
                                 (some (s3.partNumber + 1)) [0] [0].length },
      ?_, ?_, rfl, ?_, ?_⟩
    · have hshape : rotatedAwayEvents
          = Event.connectOk true ::
              (List.replicate 1 (goodRead fullChunk) ++
                (List.replicate 1 (goodRead (List.replicate 903 0)) ++ [goodRead [0]])) := rfl
      rw [hshape, run_cons_next hst1, run_append, hrun2, Option.some_bind, run_append, hrun3,
        Option.some_bind, run_cons_next hstep4]
      rfl
    · show s3.partNumber + 1 = 2
      rw [hp3']
    · rw [fileSize_rotated_other s3 [0] 1 (by rw [hp3']; decide), hf3]
    · rw [fileSize_rotated_other s3 [0] 1 (by rw [hp3']; decide), hf3]
      show ¬ 0 + 1 * 4096 + 1 * 903 ≤ 0 + 4096
      decide

theorem rotated_away_at_maxFileSize :
    (∀ e ∈ firstRotationEvents, e.wellFormed) ∧
    ∃ s, run maxFileSize initState firstRotationEvents = some s ∧
      s.partNumber = 2 ∧ s.totalBytes = 0 ∧ fileSize s 1 = 4294963200 ∧
      ¬ fileSize s 1 ≤ s.totalBytes + 4096 := by
  constructor
  · intro e he
    simp only [firstRotationEvents, List.mem_cons, List.mem_append, List.mem_replicate,
      List.mem_singleton, List.mem_nil_iff, or_false] at he
    have hfull : (goodRead fullChunk).wellFormed := by
      show fullChunk.length ≤ bufSize
      rw [fullChunk_length]
      decide
    rcases he with rfl | ⟨-, rfl⟩ | rfl
    · trivial
    · exact hfull
    · exact hfull
  · have hT : maxFileSize = 4294967296 := by decide
    have hst1 : step maxFileSize initState (Event.connectOk true)
        = some (Outcome.next (stateAfter maxFileSize [Event.connectOk true])
            [Action.get, Action.create 1]) := rfl
    have h10 : (stateAfter maxFileSize [Event.connectOk true]).totalBytes = 0 := rfl
    have hf1 : fileSize (stateAfter maxFileSize [Event.connectOk true]) 1 = 0 := rfl
    obtain ⟨s2, hrun2, hc2, ho2, hp2, ht2, hf2⟩ :=
      run_plain_replicate (T := maxFileSize) fullChunk 4096 fullChunk_length (by decide) 1
        1048575 (stateAfter maxFileSize [Event.connectOk true]) rfl rfl
        (by rw [h10, hT]; decide)
    rw [h10] at ht2
    rw [hf1] at hf2
    have hp2' : s2.partNumber = 1 := hp2
    have hstep3 := step_rotate (T := maxFileSize) hc2 fullChunk_ne_nil
      (by rw [ht2, fullChunk_length, hT])
    refine ⟨{ s2 with totalBytes := 0,
                      partNumber := s2.partNumber + 1,
                      outputFile := some (s2.partNumber + 1),
                      files := writeFile (createFile s2.files (s2.partNumber + 1))
                                 (some (s2.partNumber + 1)) fullChunk fullChunk.length },
      ?_, ?_, rfl, ?_, ?_⟩
    · unfold firstRotationEvents
      rw [run_cons_next hst1, run_append, hrun2, Option.some_bind, run_cons_next hstep3]
      rfl
    · show s2.partNumber + 1 = 2
      rw [hp2']
    · rw [fileSize_rotated_other s2 fullChunk 1 (by rw [hp2']; decide), hf2]
    · rw [fileSize_rotated_other s2 fullChunk 1 (by rw [hp2']; decide), hf2]
      show ¬ 0 + 1048575 * 4096 ≤ 0 + 4096
      decide

/-- C9 (as stated) fails for a part that has been rotated away. With threshold 5000 and
reads of at most 4096 bytes, after reads of 4096, 903 and 1 bytes part 2 is current,
`totalBytes` is 0, and part 1, which was created by the connect and so received no chunk
at a rotation, holds 4999 bytes: more than `totalBytes` plus any chunk of at most 4096
bytes. With the program's own threshold of 4 GiB the same happens after 1048576 reads of
4096 bytes: part 1 holds 4 GiB - 4096 bytes while `totalBytes` is 0. -/
theorem rotated_away_part_exceeds_counter_plus_chunk :
    ((∀ e ∈ rotatedAwayEvents, e.wellFormed) ∧
      ∃ s, run 5000 initState rotatedAwayEvents = some s ∧
        s.partNumber = 2 ∧ s.totalBytes = 0 ∧ fileSize s 1 = 4999 ∧
        ¬ fileSize s 1 ≤ s.totalBytes + 4096) ∧
    ((∀ e ∈ firstRotationEvents, e.wellFormed) ∧
      ∃ s, run maxFileSize initState firstRotationEvents = some s ∧
        s.partNumber = 2 ∧ s.totalBytes = 0 ∧ fileSize s 1 = 4294963200 ∧
        ¬ fileSize s 1 ≤ s.totalBytes + 4096) :=
  ⟨rotated_away_at_threshold_5000, rotated_away_at_maxFileSize⟩

theorem partsConcat_length_two (s : CaptureState) (h : s.partNumber = 2) :
    (partsConcat s 1).length = fileSize s 1 + fileSize s 2 := by
  simp [partsConcat, h, concatFiles, fileSize]

theorem partsConcat_length_three (s : CaptureState) (h : s.partNumber = 3) :
    (partsConcat s 1).length = fileSize s 1 + fileSize s 2 + fileSize s 3 := by
  simp [partsConcat, h, concatFiles, fileSize]
  omega

theorem scenarioInv_of_rotate {T : Nat} {s s' : CaptureState} (hs : ScenarioInv T s)
    (n : Nat) (hn : 0 < n) (hge : T ≤ s.totalBytes + n)
    (hctl : s'.control = Control.streaming) (hout : s'.outputFile = some s'.partNumber)
    (hpn : s'.partNumber = s.partNumber + 1) (htb : s'.totalBytes = 0)
    (hnew : fileSize s' (s.partNumber + 1) = n)
    (hold : ∀ k, k ≠ s.partNumber + 1 → fileSize s' k = fileSize s k)
    (hL : (partsConcat s' 1).length = (partsConcat s 1).length + n)
    (hnone : ∀ k, s.partNumber + 1 < k → s'.files k = none) : ScenarioInv T s' := by
  obtain ⟨-, -, h1, h2, h3, h4, h5, h6, h7, h8, h9, -⟩ := hs
  have hf1 : fileSize s' 1 = fileSize s 1 := hold 1 (by omega)
  refine ⟨hctl, hout, by omega, by omega, by omega, fun h => by omega, fun h => ?_,
    fun h => ?_, fun h => ?_, fun h => ?_, fun h => ?_, fun k hk => hnone k (by omega)⟩
  · have hp : s.partNumber = 1 := by omega
    have := h4 hp
    have hnew2 : fileSize s' 2 = n := by rw [hp] at hnew; exact hnew
    omega
  · have hf2 : fileSize s' 2 = fileSize s 2 := hold 2 (by omega)
    by_cases hp : s.partNumber = 2
    · have := h5 hp
      omega
    · have := h6 (by omega)
      omega
  · by_cases hp : s.partNumber = 1
    · have hnew2 : fileSize s' 2 = n := by rw [hp] at hnew; exact hnew
      omega
    · have hf2 : fileSize s' 2 = fileSize s 2 := hold 2 (by omega)
      have := h7 (by omega)
      omega
  · have hp : s.partNumber = 2 := by omega
    have := h5 hp
    have := partsConcat_length_two s hp
    omega
  · by_cases hp : s.partNumber = 3
    · have := h8 hp
      omega
    · have := h9 (by omega)
      omega

theorem scenarioInv_of_plain {T : Nat} {s s' : CaptureState} (hs : ScenarioInv T s)
    (n : Nat) (hlt : s.totalBytes + n < T)
    (hctl : s'.control = Control.streaming) (hout : s'.outputFile = some s'.partNumber)
    (hpn : s'.partNumber = s.partNumber) (htb : s'.totalBytes = s.totalBytes + n)
    (hnew : fileSize s' s.partNumber = fileSize s s.partNumber + n)
    (hold : ∀ k, k ≠ s.partNumber → fileSize s' k = fileSize s k)
    (hL : (partsConcat s' 1).length = (partsConcat s 1).length + n)
    (hnone : ∀ k, s.partNumber < k → s'.files k = none) : ScenarioInv T s' := by
  obtain ⟨-, -, h1, h2, h3, h4, h5, h6, h7, h8, h9, -⟩ := hs
  refine ⟨hctl, hout, by omega, by omega, ?_, fun h => ?_, fun h => ?_,
    fun h => ?_, fun h => ?_, fun h => ?_, fun h => ?_, fun k hk => hnone k (by omega)⟩
  · by_cases hp : s.partNumber = 1
    · have := h4 hp
      have hnew1 : fileSize s' 1 = fileSize s 1 + n := by rw [hp] at hnew; exact hnew
      omega
    · rw [hold 1 (fun h => hp h.symm)]
      exact h3
  · have hp : s.partNumber = 1 := by omega
    have := h4 hp
    have hnew1 : fileSize s' 1 = fileSize s 1 + n := by rw [hp] at hnew; exact hnew
    omega
  · have hp : s.partNumber = 2 := by omega
    have := h5 hp
    have hnew2 : fileSize s' 2 = fileSize s 2 + n := by rw [hp] at hnew; exact hnew
    have hf1 : fileSize s' 1 = fileSize s 1 := hold 1 (by omega)
    omega
  · have hp : 3 ≤ s.partNumber := by omega
    have := h6 hp
    rw [hold 1 (by omega), hold 2 (by omega)]
    exact this
  · by_cases hp : s.partNumber = 2
    · have := h7 (by omega)
      have hnew2 : fileSize s' 2 = fileSize s 2 + n := by rw [hp] at hnew; exact hnew
      omega
    · rw [hold 2 (fun h => hp h.symm)]
      exact h7 (by omega)
  · have hp : s.partNumber = 3 := by omega
    have := h8 hp
    omega
  · have := h9 (by omega)
    omega

theorem scenarioInv_connected (T : Nat) (hT : 0 < T) :
    ScenarioInv T (stateAfter T [Event.connectOk true]) := by
  have hp : (stateAfter T [Event.connectOk true]).partNumber = 1 := rfl
  refine ⟨rfl, rfl, Nat.le_refl _, hT, hT, fun _ => rfl, fun h => ?_, fun h => ?_,
    fun h => ?_, fun h => ?_, fun h => ?_, fun k hk => ?_⟩
  · omega
  · omega
  · omega
  · omega
  · omega
  · have hk' : 1 < k := hk
    show createFile initState.files 1 k = none
    simp only [createFile]
    rw [if_neg (by omega)]
    rfl

theorem scenarioInv_goodRead {T : Nat} {s : CaptureState} (hs : ScenarioInv T s)
    (d : List Nat) :
    ∃ s' acts, step T s (goodRead d) = some (Outcome.next s' acts) ∧ ScenarioInv T s' ∧
      partsConcat s' 1 = partsConcat s 1 ++ d := by
  have hc : s.control = Control.streaming := hs.1
  have hout : s.outputFile = some s.partNumber := hs.2.1
  have hpn : 1 ≤ s.partNumber := hs.2.2.1
  have hnone : ∀ k, s.partNumber < k → s.files k = none := hs.2.2.2.2.2.2.2.2.2.2.2
  by_cases hd : d = []
  · subst hd
    refine ⟨s, [Action.sleep idleDelay], ?_, hs, by simp⟩
    exact step_idle hc (show (goodRead []).isIdleRead from ⟨rfl, Or.inr rfl⟩)
  · have hlen : 0 < d.length := List.length_pos.mpr hd
    by_cases hge : T ≤ s.totalBytes + d.length
    · refine ⟨_, _, step_rotate hc hd hge, ?_, partsConcat_rotate s 1 hpn d⟩
      refine scenarioInv_of_rotate hs d.length hlen hge hc rfl rfl rfl
        (fileSize_rotated s d) (fun k hk => fileSize_rotated_other s d k hk) ?_ ?_
      · rw [partsConcat_rotate s 1 hpn d, List.length_append]
      · intro k hk
        show writeFile (createFile s.files (s.partNumber + 1)) (some (s.partNumber + 1)) d
          d.length k = none
        rw [writeFile_other _ _ _ _ _ (by omega)]
        simp only [createFile]
        rw [if_neg (by omega)]
        exact hnone k (by omega)
    · have hlt : s.totalBytes + d.length < T := by omega
      have hfiles : writeFile s.files s.outputFile d d.length
          = writeFile s.files (some s.partNumber) d d.length := by rw [hout]
      have hcat : partsConcat { s with totalBytes := s.totalBytes + d.length,
                                       files := writeFile s.files s.outputFile d d.length } 1
          = partsConcat s 1 ++ d := by
        show concatFiles (writeFile s.files s.outputFile d d.length) 1 (s.partNumber + 1 - 1)
          = partsConcat s 1 ++ d
        rw [hfiles]
        exact partsConcat_plain s 1 hpn d (s.totalBytes + d.length)
      refine ⟨_, _, step_plain hc hd hlt, ?_, hcat⟩
      refine scenarioInv_of_plain hs d.length hlt hc hout rfl rfl ?_ ?_ ?_ ?_
      · simp [fileSize, writeFile, hout]
      · intro k hk
        show ((writeFile s.files s.outputFile d d.length k).getD []).length = fileSize s k
        rw [hfiles, writeFile_other _ _ _ _ _ hk]
        rfl
      · rw [hcat, List.length_append]
      · intro k hk
        show writeFile s.files s.outputFile d d.length k = none
        rw [hfiles, writeFile_other _ _ _ _ _ (by omega)]
        exact hnone k hk

theorem scenarioInv_run {T : Nat} :
    ∀ (chunks : List (List Nat)) (s : CaptureState), ScenarioInv T s →
      ∃ s', run T s (chunks.map goodRead) = some s' ∧ ScenarioInv T s' ∧
        partsConcat s' 1 = partsConcat s 1 ++ chunks.flatten := by
  intro chunks
  induction chunks with
  | nil =>
    intro s hs
    exact ⟨s, rfl, hs, by simp⟩
  | cons d ds ih =>
    intro s hs
    obtain ⟨s1, acts, hst, hs1, hp1⟩ := scenarioInv_goodRead hs d
    obtain ⟨s2, hrun, hs2, hp2⟩ := ih s1 hs1
    refine ⟨s2, ?_, hs2, ?_⟩
    · rw [List.map_cons, run_cons_next hst]
      exact hrun
    · rw [hp2, hp1, List.append_assoc]
      rfl

theorem partsConcat_length_one (s : CaptureState) (h : s.partNumber = 1) :
    (partsConcat s 1).length = fileSize s 1 := by
  simp [partsConcat, h, concatFiles, fileSize]

/-- C7 (amended). Threshold 10, prefix "out": when the server delivers 25 bytes and then
closes, then for every way the 25 bytes are split into successive reads that return no
error (the close showing as reads of zero bytes with end-of-stream, file operations
succeeding), the capture loop leaves `out_part1.ts` with at most 9 bytes, `out_part2.ts`
with at least 1 byte and `out_part3.ts` with at most 15 bytes (none when it was not
created); the three files in this order hold exactly the 25 delivered bytes, and there is
no later part file. -/
theorem scenario_25_bytes_three_parts (chunks : List (List Nat))
    (hlen : chunks.flatten.length = 25) (n : Nat) :
    ∃ s, run 10 initState
        (Event.connectOk true :: (chunks.map goodRead ++ List.replicate n eofRead)) = some s ∧
      fileSize s 1 ≤ 9 ∧ 1 ≤ fileSize s 2 ∧ fileSize s 3 ≤ 15 ∧
      concatFiles s.files 1 3 = chunks.flatten ∧
      (∀ k, 4 ≤ k → s.files k = none) ∧
      partFileName "out" 1 = "out_part1.ts" ∧ partFileName "out" 2 = "out_part2.ts" ∧
      partFileName "out" 3 = "out_part3.ts" := by
  obtain ⟨s, hrun, hs, hcat⟩ :=
    scenarioInv_run (T := 10) chunks (stateAfter 10 [Event.connectOk true])
      (scenarioInv_connected 10 (by decide))
  have h0 : partsConcat (stateAfter 10 [Event.connectOk true]) 1 = [] := rfl
  rw [h0, List.nil_append] at hcat
  have hL : (partsConcat s 1).length = 25 := by rw [hcat, hlen]
  obtain ⟨hc, -, h1, h2, h3, h4, h5, h6, h7, h8, h9, hnone⟩ := hs
  have hidle := (run_idle (T := 10) hc (List.replicate n eofRead)
    (fun e he => by rw [List.eq_of_mem_replicate he]; exact isIdleRead_eofRead)).1
  have hall : run 10 initState
      (Event.connectOk true :: (chunks.map goodRead ++ List.replicate n eofRead)) = some s := by
    have hst1 : step 10 initState (Event.connectOk true)
        = some (Outcome.next (stateAfter 10 [Event.connectOk true])
            [Action.get, Action.create 1]) := rfl
    rw [run_cons_next hst1, run_append, hrun]
    exact hidle
  have hpn : s.partNumber = 2 ∨ s.partNumber = 3 := by
    by_cases hp1 : s.partNumber = 1
    · have := h4 hp1
      have := partsConcat_length_one s hp1
      omega
    · by_cases hp4 : 4 ≤ s.partNumber
      · have := h9 hp4
        omega
      · omega
  refine ⟨s, hall, by omega, h7 (by omega), ?_, ?_, fun k hk => hnone k (by omega),
    by decide, by decide, by decide⟩
  · rcases hpn with hp | hp
    · have : s.files 3 = none := hnone 3 (by omega)
      simp [fileSize, this]
    · have := partsConcat_length_three s hp
      have := h6 (by omega)
      omega
  · rcases hpn with hp | hp
    · have hnone3 : s.files 3 = none := hnone 3 (by omega)
      have h2parts : partsConcat s 1 = concatFiles s.files 1 2 := by
        simp only [partsConcat, hp]
      have : concatFiles s.files 1 3 = concatFiles s.files 1 2 ++ (s.files 3).getD [] := rfl
      rw [this, hnone3, ← h2parts, hcat]
      simp
    · have h3parts : partsConcat s 1 = concatFiles s.files 1 3 := by
        simp only [partsConcat, hp]
      rw [← h3parts, hcat]

theorem scenario_25_bytes_three_parts_witness :
    (List.replicate 25 [7]).flatten.length = 25 ∧
    ∃ s, run 10 initState
        (Event.connectOk true ::
          ((List.replicate 25 [7]).map goodRead ++ List.replicate 2 eofRead)) = some s ∧
      fileSize s 1 ≤ 9 ∧ 1 ≤ fileSize s 2 ∧ fileSize s 3 ≤ 15 ∧
      concatFiles s.files 1 3 = (List.replicate 25 [7]).flatten ∧
      (∀ k, 4 ≤ k → s.files k = none) ∧
      partFileName "out" 1 = "out_part1.ts" ∧ partFileName "out" 2 = "out_part2.ts" ∧
      partFileName "out" 3 = "out_part3.ts" :=
  ⟨by decide, scenario_25_bytes_three_parts (List.replicate 25 [7]) (by decide) 2⟩

/-- C7 (as stated) fails. With threshold 10, 25 bytes delivered in reads of one byte
and then end-of-stream leave 9, 10 and 6 bytes in parts 1, 2 and 3; delivered in one
read of 25 bytes they leave part 1 empty and 25 bytes in part 2; delivered as a read of
9 bytes, a read of 1 byte and a read of 15 bytes they leave 9, 1 and 15 bytes; and when
the last 5 bytes arrive together with end-of-stream (after 20 reads of one byte) they
are dropped, the files holding 9, 10 and 1 bytes; and when the write of a single read of
25 bytes stores only 3 bytes, part 2 holds 3 bytes. None of these is 10, 10, 5. -/
theorem scenario_25_bytes_not_10_10_5 :
    run 10 initState
        (Event.connectOk true :: ((List.replicate 25 [7]).map goodRead ++ [eofRead]))
      = some (stateAfter 10
          (Event.connectOk true :: ((List.replicate 25 [7]).map goodRead ++ [eofRead]))) ∧
    fileSize (stateAfter 10
      (Event.connectOk true :: ((List.replicate 25 [7]).map goodRead ++ [eofRead]))) 1 = 9 ∧
    fileSize (stateAfter 10
      (Event.connectOk true :: ((List.replicate 25 [7]).map goodRead ++ [eofRead]))) 2 = 10 ∧
    fileSize (stateAfter 10
      (Event.connectOk true :: ((List.replicate 25 [7]).map goodRead ++ [eofRead]))) 3 = 6 ∧
    run 10 initState [Event.connectOk true, goodRead (List.replicate 25 7), eofRead]
      = some (stateAfter 10
          [Event.connectOk true, goodRead (List.replicate 25 7), eofRead]) ∧
    fileSize (stateAfter 10
      [Event.connectOk true, goodRead (List.replicate 25 7), eofRead]) 1 = 0 ∧
    fileSize (stateAfter 10
      [Event.connectOk true, goodRead (List.replicate 25 7), eofRead]) 2 = 25 ∧
    fileSize (stateAfter 10
      [Event.connectOk true, goodRead (List.replicate 25 7), eofRead]) 3 = 0 ∧
    run 10 initState
        [Event.connectOk true, goodRead (List.replicate 9 7), goodRead [7],
          goodRead (List.replicate 15 7), eofRead]
      = some (stateAfter 10
          [Event.connectOk true, goodRead (List.replicate 9 7), goodRead [7],
            goodRead (List.replicate 15 7), eofRead]) ∧
    fileSize (stateAfter 10
      [Event.connectOk true, goodRead (List.replicate 9 7), goodRead [7],
        goodRead (List.replicate 15 7), eofRead]) 1 = 9 ∧
    fileSize (stateAfter 10
      [Event.connectOk true, goodRead (List.replicate 9 7), goodRead [7],
        goodRead (List.replicate 15 7), eofRead]) 2 = 1 ∧
    fileSize (stateAfter 10
      [Event.connectOk true, goodRead (List.replicate 9 7), goodRead [7],
        goodRead (List.replicate 15 7), eofRead]) 3 = 15 ∧
    run 10 initState
        (Event.connectOk true :: ((List.replicate 20 [7]).map goodRead ++
          [Event.read (List.replicate 5 7) (some ReadErr.eof) true 5]))
      = some (stateAfter 10
          (Event.connectOk true :: ((List.replicate 20 [7]).map goodRead ++
            [Event.read (List.replicate 5 7) (some ReadErr.eof) true 5]))) ∧
    fileSize (stateAfter 10
      (Event.connectOk true :: ((List.replicate 20 [7]).map goodRead ++
        [Event.read (List.replicate 5 7) (some ReadErr.eof) true 5]))) 1 = 9 ∧
    fileSize (stateAfter 10
      (Event.connectOk true :: ((List.replicate 20 [7]).map goodRead ++
        [Event.read (List.replicate 5 7) (some ReadErr.eof) true 5]))) 2 = 10 ∧
    fileSize (stateAfter 10
      (Event.connectOk true :: ((List.replicate 20 [7]).map goodRead ++
        [Event.read (List.replicate 5 7) (some ReadErr.eof) true 5]))) 3 = 1 ∧
    run 10 initState
        [Event.connectOk true, Event.read (List.replicate 25 7) none true 3, eofRead]
      = some (stateAfter 10
          [Event.connectOk true, Event.read (List.replicate 25 7) none true 3, eofRead]) ∧
    fileSize (stateAfter 10
      [Event.connectOk true, Event.read (List.replicate 25 7) none true 3, eofRead]) 1 = 0 ∧
    fileSize (stateAfter 10
      [Event.connectOk true, Event.read (List.replicate 25 7) none true 3, eofRead]) 2 = 3 ∧
    fileSize (stateAfter 10
      [Event.connectOk true, Event.read (List.replicate 25 7) none true 3, eofRead]) 3
      = 0 := by
  refine ⟨rfl, ?_, ?_, ?_, rfl, ?_, ?_, ?_, rfl, ?_, ?_, ?_, rfl, ?_, ?_, ?_,
    rfl, ?_, ?_, ?_⟩ <;> decide

/-! ## Theorems: the playlist fetcher -/

theorem utf8Len_reverse (l : List Char) : utf8Len l.reverse = utf8Len l := by
  simp [utf8Len, List.sum_reverse]

theorem isSpace_cr : isSpace '\r' = true := by decide

theorem trimSpace_nil : trimSpace [] = [] := rfl

theorem trimSpace_append_space (l : List Char) (c : Char) (hc : isSpace c = true) :
    trimSpace (l ++ [c]) = trimSpace l := by
  simp only [trimSpace]
  congr 1
  by_cases hall : ∀ x ∈ l, isSpace x = true
  · have h1 : (l ++ [c]).dropWhile isSpace = [] := by
      rw [List.dropWhile_eq_nil_iff]
      intro x hx
      rcases List.mem_append.mp hx with h | h
      · exact hall x h
      · rw [List.mem_singleton.mp h]; exact hc
    have h2 : l.dropWhile isSpace = [] := by
      rw [List.dropWhile_eq_nil_iff]
      exact hall
    rw [h1, h2]
  · have h1 : (l ++ [c]).dropWhile isSpace = l.dropWhile isSpace ++ [c] := by
      clear hc
      induction l with
      | nil => exact absurd (fun x hx => absurd hx (List.not_mem_nil x)) hall
      | cons a as ih =>
        by_cases ha : isSpace a = true
        · rw [List.cons_append, List.dropWhile_cons_of_pos ha, List.dropWhile_cons_of_pos ha]
          apply ih
          intro hall'
          apply hall
          intro x hx
          rcases List.mem_cons.mp hx with h | h
          · rw [h]; exact ha
          · exact hall' x h
        · rw [List.cons_append, List.dropWhile_cons_of_neg ha, List.dropWhile_cons_of_neg ha]
          rfl
    rw [h1, List.reverse_append, List.reverse_singleton, List.singleton_append,
      List.dropWhile_cons_of_pos hc]

theorem trimSpace_dropCR (l : List Char) : trimSpace (dropCR l) = trimSpace l := by
  unfold dropCR
  split
  · next h =>
    have hl : l = l.dropLast ++ ['\r'] := by
      have hne : l ≠ [] := by
        intro h0
        rw [h0] at h
        simp at h
      have := List.dropLast_append_getLast? '\r' (by simpa using h)
      exact this.symm
    conv_rhs => rw [hl]
    exact (trimSpace_append_space _ _ isSpace_cr).symm
  · rfl

theorem scan_eq_split (f : List Char → Bool) (hf : f [] = false) :
    ∀ (xs cur : List Char),
      (∀ ln ∈ List.splitOnP.go (fun c => c == '\n') xs cur, utf8Len ln < maxScanTokenSize) →
      ((scanLinesAux xs cur).map trimSpace).filter f
        = ((List.splitOnP.go (fun c => c == '\n') xs cur).map trimSpace).filter f := by
  intro xs
  induction xs with
  | nil =>
    intro cur hfit
    simp only [scanLinesAux, List.splitOnP.go]
    by_cases hcur : cur = []
    · subst hcur
      simp [trimSpace_nil, hf]
    · have hlen : utf8Len cur < maxScanTokenSize := by
        have := hfit cur.reverse (by simp [List.splitOnP.go])
        rwa [utf8Len_reverse] at this
      rw [if_neg hcur, if_pos hlen]
      simp only [List.map_cons, List.map_nil, trimSpace_dropCR]
  | cons a t ih =>
    intro cur hfit
    by_cases ha : a = '\n'
    · subst ha
      have hgo : List.splitOnP.go (fun c => c == '\n') ('\n' :: t) cur
          = cur.reverse :: List.splitOnP.go (fun c => c == '\n') t [] := by
        simp [List.splitOnP.go]
      rw [hgo] at hfit ⊢
      have hlen : utf8Len cur < maxScanTokenSize := by
        have := hfit cur.reverse (by simp)
        rwa [utf8Len_reverse] at this
      have ih' := ih [] (fun ln hln => hfit ln (by simp [hln]))
      simp only [scanLinesAux, if_true, if_pos hlen, List.map_cons, trimSpace_dropCR,
        List.filter_cons]
      rw [ih']
    · have hgo : List.splitOnP.go (fun c => c == '\n') (a :: t) cur
          = List.splitOnP.go (fun c => c == '\n') t (a :: cur) := by
        simp [List.splitOnP.go, ha]
      rw [hgo] at hfit ⊢
      simp only [scanLinesAux, if_neg ha]
      exact ih (a :: cur) hfit

theorem isSegmentRef_eq (line : List Char) :
    isSegmentRef line = decide (line ≠ [] ∧ line.head? ≠ some '#') := by
  cases line with
  | nil => rfl
  | cons c cs =>
    by_cases hc : c = '#'
    · subst hc; simp [isSegmentRef]
    · simp [isSegmentRef, hc]

theorem playlistLoop_eq (base : BaseURL) (pfx : String) :
    ∀ (toks : List (List Char)) (k : Nat),
      playlistLoop base pfx toks k
        = (((toks.map trimSpace).filter isSegmentRef).enumFrom k).map
            (fun p => { url := resolveSegmentURL base p.2, filename := partFileName pfx p.1 }) := by
  intro toks
  induction toks with
  | nil => intro k; rfl
  | cons tok rest ih =>
    intro k
    simp only [playlistLoop, List.map_cons, List.filter_cons]
    split
    · simp only [List.enumFrom_cons, List.map_cons]
      rw [ih]
    · exact ih k

theorem downloadFromPlaylist_eq (base : BaseURL) (pfx : String) (body : List Char)
    (hfit : ∀ ln ∈ body.splitOn '\n', utf8Len ln < maxScanTokenSize) :
    downloadFromPlaylist base pfx body = expectedCalls base pfx (segmentRefs body) := by
  unfold downloadFromPlaylist expectedCalls segmentRefs
  rw [playlistLoop_eq]
  have hfun : (fun line : List Char => decide (line ≠ [] ∧ line.head? ≠ some '#'))
      = isSegmentRef := by
    funext line
    exact (isSegmentRef_eq line).symm
  rw [hfun]
  have := scan_eq_split isSegmentRef rfl body [] hfit
  unfold scanLines
  rw [this]
  rfl

theorem getElem?_expectedCalls (base : BaseURL) (pfx : String) (refs : List (List Char))
    (k : Nat) (line : List Char) (h : refs[k]? = some line) :
    (expectedCalls base pfx refs)[k]?
      = some (SegmentCall.mk (resolveSegmentURL base line) (partFileName pfx (k + 1))) := by
  simp only [expectedCalls, List.getElem?_map, List.getElem?_enumFrom, h, Option.map_some',
    Nat.add_comm 1 k]

/-- C3 (amended). For every playlist body whose lines each have fewer than 65536 bytes
(the token limit of the line scanner): `downloadFromPlaylist` calls `downloadSegment`
exactly once for each line that, after trimming white space, is non-empty and does not
start with `#`, for no other line, in document order, and the k-th call (from 1) is for
that line's resolved URL and the file `<outputPrefix>_part<k>.ts`; so there are as many
calls as such lines. -/
theorem playlist_one_call_per_segment_ref (base : BaseURL) (pfx : String) (body : List Char)
    (hfit : ∀ ln ∈ body.splitOn '\n', utf8Len ln < maxScanTokenSize) :
    downloadFromPlaylist base pfx body = expectedCalls base pfx (segmentRefs body) ∧
    (downloadFromPlaylist base pfx body).length = (segmentRefs body).length ∧
    ∀ k line, (segmentRefs body)[k]? = some line →
      (downloadFromPlaylist base pfx body)[k]?
        = some (SegmentCall.mk (resolveSegmentURL base line) (partFileName pfx (k + 1))) := by
  have heq := downloadFromPlaylist_eq base pfx body hfit
  refine ⟨heq, ?_, ?_⟩
  · rw [heq]
    simp [expectedCalls]
  · intro k line hk
    rw [heq]
    exact getElem?_expectedCalls base pfx _ k line hk

theorem demoBody_fits : ∀ ln ∈ demoBody.splitOn '\n', utf8Len ln < maxScanTokenSize := by
  decide

theorem playlist_one_call_per_segment_ref_witness :
    segmentRefs demoBody = ["seg1.ts".toList, "http://other/seg2.ts".toList] ∧
    downloadFromPlaylist demoBase "out" demoBody
      = expectedCalls demoBase "out" (segmentRefs demoBody) ∧
    (downloadFromPlaylist demoBase "out" demoBody).length = 2 :=
  ⟨by decide, (playlist_one_call_per_segment_ref demoBase "out" demoBody demoBody_fits).1,
    by decide⟩

theorem scanLinesAux_replicate (n : Nat) :
    ∀ (rest cur : List Char),
      scanLinesAux (List.replicate n 'a' ++ rest) cur
        = scanLinesAux rest (List.replicate n 'a' ++ cur) := by
  induction n with
  | zero => intro rest cur; rfl
  | succ n ih =>
    intro rest cur
    have h1 : List.replicate (n + 1) 'a' ++ rest = 'a' :: (List.replicate n 'a' ++ rest) := rfl
    have h2 : List.replicate (n + 1) 'a' ++ cur = List.replicate n 'a' ++ 'a' :: cur := by
      rw [List.replicate_succ', List.append_assoc]
      rfl
    rw [h1, h2]
    have hstep : scanLinesAux ('a' :: (List.replicate n 'a' ++ rest)) cur
        = scanLinesAux (List.replicate n 'a' ++ rest) ('a' :: cur) := by
      simp only [scanLinesAux]
      rw [if_neg (by decide)]
    rw [hstep]
    exact ih rest ('a' :: cur)

theorem splitGo_replicate (n : Nat) :
    ∀ (rest cur : List Char),
      List.splitOnP.go (fun c => c == '\n') (List.replicate n 'a' ++ rest) cur
        = List.splitOnP.go (fun c => c == '\n') rest (List.replicate n 'a' ++ cur) := by
  induction n with
  | zero => intro rest cur; rfl
  | succ n ih =>
    intro rest cur
    have h1 : List.replicate (n + 1) 'a' ++ rest = 'a' :: (List.replicate n 'a' ++ rest) := rfl
    have h2 : List.replicate (n + 1) 'a' ++ cur = List.replicate n 'a' ++ 'a' :: cur := by
      rw [List.replicate_succ', List.append_assoc]
      rfl
    rw [h1, h2]
    have hstep : List.splitOnP.go (fun c => c == '\n') ('a' :: (List.replicate n 'a' ++ rest)) cur
        = List.splitOnP.go (fun c => c == '\n') (List.replicate n 'a' ++ rest) ('a' :: cur) := by
      simp [List.splitOnP.go]
    rw [hstep]
    exact ih rest ('a' :: cur)

theorem utf8Len_replicate (n : Nat) : utf8Len (List.replicate n 'a') = n := by
  induction n with
  | zero => rfl
  | succ n ih =>
    have h : utf8Len (List.replicate (n + 1) 'a') = Char.utf8Size 'a' + utf8Len (List.replicate n 'a') := by
      simp [utf8Len, List.replicate_succ]
    rw [h, ih]
    have : Char.utf8Size 'a' = 1 := by decide
    omega

theorem trimSpace_replicate (n : Nat) :
    trimSpace (List.replicate n 'a') = List.replicate n 'a' := by
  cases n with
  | zero => rfl
  | succ n =>
    have hns : ¬ isSpace 'a' = true := by decide
    have h1 : (List.replicate (n + 1) 'a').dropWhile isSpace = List.replicate (n + 1) 'a' := by
      rw [List.replicate_succ, List.dropWhile_cons_of_neg hns]
    have h2 : (List.replicate (n + 1) 'a').reverse = List.replicate (n + 1) 'a' :=
      List.reverse_replicate _ _
    simp only [trimSpace]
    rw [h1, h2, h1, h2]

theorem splitGo_newline (rest cur : List Char) :
    List.splitOnP.go (fun c => c == '\n') ('\n' :: rest) cur
      = cur.reverse :: List.splitOnP.go (fun c => c == '\n') rest [] := by
  simp [List.splitOnP.go]

theorem isRef_replicate (n : Nat) (hn : 0 < n) :
    decide (List.replicate n 'a' ≠ [] ∧ (List.replicate n 'a').head? ≠ some '#') = true := by
  cases n with
  | zero => exact absurd hn (by decide)
  | succ m =>
    rw [List.replicate_succ]
    simp

/-- C3 (as stated) fails. For a playlist body whose first line has 65536 bytes the line
scanner stops with "token too long" before it delivers a line: `downloadFromPlaylist`
makes no call, although the body has two lines that are non-empty after trimming and do
not start with `#` (the long line and `seg1.ts`). -/
theorem playlist_long_line_no_calls :
    downloadFromPlaylist demoBase "out" longLineBody = [] ∧
    segmentRefs longLineBody = [List.replicate 65536 'a', "seg1.ts".toList] ∧
    (downloadFromPlaylist demoBase "out" longLineBody).length
      ≠ (segmentRefs longLineBody).length := by
  have hshape : "\nseg1.ts\n".toList = '\n' :: "seg1.ts\n".toList := rfl
  have hscan : scanLines longLineBody = [] := by
    unfold scanLines longLineBody
    rw [scanLinesAux_replicate]
    have hlen : ¬ utf8Len (List.replicate 65536 'a' ++ []) < maxScanTokenSize := by
      rw [List.append_nil, utf8Len_replicate]
      decide
    rw [hshape]
    simp only [scanLinesAux, if_true]
    rw [if_neg hlen]
  have hcalls : downloadFromPlaylist demoBase "out" longLineBody = [] := by
    unfold downloadFromPlaylist
    rw [hscan]
    rfl
  have hsplit : longLineBody.splitOn '\n'
      = [List.replicate 65536 'a', "seg1.ts".toList, []] := by
    have h0 : longLineBody.splitOn '\n'
        = List.splitOnP.go (fun c => c == '\n') longLineBody [] := rfl
    rw [h0]
    unfold longLineBody
    rw [splitGo_replicate, hshape, splitGo_newline, List.append_nil, List.reverse_replicate]
    have hrest : List.splitOnP.go (fun c => c == '\n') "seg1.ts\n".toList []
        = ["seg1.ts".toList, []] := by decide
    rw [hrest]
  have hrefs : segmentRefs longLineBody = [List.replicate 65536 'a', "seg1.ts".toList] := by
    unfold segmentRefs
    rw [hsplit, List.map_cons, trimSpace_replicate]
    have hkeep : ∀ rest : List (List Char),
        List.filter (fun line => decide (line ≠ [] ∧ line.head? ≠ some '#'))
            (List.replicate 65536 'a' :: rest)
          = List.replicate 65536 'a' ::
              List.filter (fun line => decide (line ≠ [] ∧ line.head? ≠ some '#')) rest :=
      fun rest => List.filter_cons_of_pos (isRef_replicate 65536 (by decide))
    rw [hkeep]
    congr 1
  refine ⟨hcalls, hrefs, ?_⟩
  rw [hcalls, hrefs, List.length_nil, List.length_cons, List.length_cons, List.length_nil]
  decide

/-- C4 at the spec's scenario: with the playlist URL `http://host/path/list.m3u8`, the
line `seg1.ts` is downloaded from `http://host/path/seg1.ts`, and the absolute reference
`http://other/seg2.ts` is downloaded from `http://host/path/http://other/seg2.ts`, not
from `http://other/seg2.ts`: the line is used as the path of a relative reference. -/
theorem absolute_reference_joined_to_base_path :
    resolveSegmentURL demoBase "seg1.ts".toList = "http://host/path/seg1.ts" ∧
    resolveSegmentURL demoBase "http://other/seg2.ts".toList
      = "http://host/path/http://other/seg2.ts" ∧
    resolveSegmentURL demoBase "http://other/seg2.ts".toList ≠ "http://other/seg2.ts" ∧
    downloadFromPlaylist demoBase "out" demoBody
      = [SegmentCall.mk "http://host/path/seg1.ts" "out_part1.ts",
         SegmentCall.mk "http://host/path/http://other/seg2.ts" "out_part2.ts"] := by
  refine ⟨?_, ?_, ?_, ?_⟩ <;> decide

end StreamCatcher
